import Mathlib

/-!
Verification of the interop (import/export orchestration) core of
`lib/services/interop/InteropService.ts`.

The TypeScript class is shallowly embedded: each method becomes a pure
Lean function, the item store and the pluggable converter modules are
abstracted as explicit parameter structures, fallible code returns
`Except`, and the dispatch phase of `export` is modelled as the list of
observable converter calls and warnings it produces, in order.
-/

namespace Interop

/-- Module type discriminator, mirroring `ModuleType` ("importer" / "exporter"). -/
inductive ModuleType
  | importer
  | exporter
deriving DecidableEq, Repr

/-- Location kind, mirroring `FileSystemItem` ("file" / "directory"). -/
inductive FileSystemItem
  | file
  | directory
deriving DecidableEq, Repr

/-- Output format of an importer, mirroring `ImportModuleOutputFormat`. -/
inductive ImportModuleOutputFormat
  | markdown
  | html
deriving DecidableEq, Repr

/-- Modelled from the spec: the `Module` descriptor shape from `./types`
(the file is not under `src/`): `type`, `format`, `fileExtensions`,
`sources`/`target`, `outputFormat` (default Markdown-like), `isDefault`,
`canDoMultiExport`, `importerClassOverride`, `instanceFactory`.  The field
default values play the role of `defaultImportExportModule`; caller-supplied
fields win over them.  `instanceFactory` is abstracted to the flag
"a custom factory is present". -/
structure Module where
  type : ModuleType
  format : String := ""
  fileExtensions : List String := []
  sources : List FileSystemItem := []
  target : Option FileSystemItem := none
  outputFormat : ImportModuleOutputFormat := ImportModuleOutputFormat.markdown
  isDefault : Bool := false
  canDoMultiExport : Bool := false
  isNoteArchive : Bool := true
  description : String := ""
  importerClass : Option String := none
  instanceFactory : Bool := false
deriving DecidableEq, Repr

/-- The push condition of the `for` loop of `findModuleByFormat_`
(`InteropService.ts:149-159`): the module must agree on `format` and `type`;
it is then pushed onto `matches` when one of the three `if`/`else if`
guards on the optional discriminators holds (each guard's body is the same
`push`, so the chain is the disjunction of its guards). -/
def matchCond (type : ModuleType) (format : String) (target : Option FileSystemItem)
    (outputFormat : Option ImportModuleOutputFormat) (m : Module) : Bool :=
  (m.format == format && m.type == type)
  && ((target.isNone && outputFormat.isNone)
      || (target.isSome && target == m.target)
      || (outputFormat.isSome && outputFormat == some m.outputFormat))

/-- `findModuleByFormat_` (`InteropService.ts:146-166`): accumulate `matches`
in list order, then return the first match flagged `isDefault`, else the
first match, else "not found". -/
def findModuleByFormat_ (modules : List Module) (type : ModuleType) (format : String)
    (target : Option FileSystemItem) (outputFormat : Option ImportModuleOutputFormat) :
    Option Module :=
  let ms := modules.foldl
    (fun acc m => if matchCond type format target outputFormat m then acc ++ [m] else acc) []
  match ms.find? (fun m => m.isDefault) with
  | some m => some m
  | none => ms.head?

/-- Modelled from the spec: ASCII lower-casing of one character, standing in
for JavaScript `String.prototype.toLowerCase` applied by
`moduleByFileExtension_` (the host string library is not under `src/`). -/
def lowerChar (c : Char) : Char :=
  if 'A' ≤ c ∧ c ≤ 'Z' then Char.ofNat (c.toNat + 32) else c

/-- Modelled from the spec: ASCII lower-casing of a string
(JavaScript `ext.toLowerCase()`). -/
def lowerStr (s : String) : String :=
  String.mk (s.data.map lowerChar)

/-- The scan loop of `moduleByFileExtension_` (`InteropService.ts:249-253`)
over the module list, with the extension already lower-cased. -/
def mbfeLoop (type : ModuleType) (e : String) : List Module → Option Module
  | [] => none
  | m :: rest =>
    if m.type ≠ type then mbfeLoop type e rest
    else if m.fileExtensions.contains e then some m
    else mbfeLoop type e rest

/-- `moduleByFileExtension_` (`InteropService.ts:244-256`): lower-case the
extension, then return the first module of the given type whose
`fileExtensions` contains it. -/
def moduleByFileExtension_ (modules : List Module) (type : ModuleType) (ext : String) :
    Option Module :=
  mbfeLoop type (lowerStr ext) modules

/-- Modelled from the spec: `toTitleCase` from `lib/string-utils` (not under
`src/`), used only to compute the implementation class name from a
(single-word) format string: first character upper-cased, rest lower-cased. -/
def toTitleCase (s : String) : String :=
  match s.data with
  | [] => ""
  | c :: rest => String.mk (c.toUpper :: rest.map Char.toLower)

/-- `modulePath` (`InteropService.ts:168-176`): the computed implementation
path of a descriptor (`importerClass` override, else a deterministic name
derived from the type and the title-cased format). -/
def modulePathOf (m : Module) : String :=
  let className :=
    if m.type = ModuleType.importer then
      match m.importerClass with
      | some c => c
      | none => "InteropService_Importer_" ++ toTitleCase m.format
    else
      "InteropService_Exporter_" ++ toTitleCase m.format
  "lib/services/interop/" ++ className

/-- How a resolved converter instance is constructed: by custom factory
(`newModuleFromCustomFactory`), or by loading the implementation class at a
path (`require(modulePath)` + `new ModuleClass()`). -/
inductive ImplKind
  | custom
  | classAt (path : String)
deriving DecidableEq, Repr

/-- The fields of the untyped `options` object that the resolver reads:
`format`, `target`, `modulePath` (empty string standing for a falsy /
absent `modulePath`). -/
structure ResolveOptions where
  format : String := ""
  target : Option FileSystemItem := none
  modulePath : String := ""
deriving DecidableEq, Repr

/-- The argument of `setMetadata`: the matched descriptor, plus (for
path-based resolution, `InteropService.ts:239`) the original call options
stored under the `options` key. -/
structure Metadata where
  options : Option ResolveOptions := none
  module : Module
deriving DecidableEq, Repr

/-- A resolved live converter: how it was instantiated and the metadata
attached to it via `setMetadata`. -/
structure Resolved where
  impl : ImplKind
  metadata : Metadata
deriving DecidableEq, Repr

/-- The ways module resolution can fail: the two descriptive
"Cannot load ... module" errors (`InteropService.ts:195` and `:224`), and
the TypeError raised by dereferencing a `null` lookup result
(`moduleMetadata.instanceFactory` at `InteropService.ts:232`). -/
inductive ResolveError
  | moduleNotFoundForOutput (type : ModuleType) (format : String)
      (outputFormat : ImportModuleOutputFormat)
  | moduleNotFound (type : ModuleType) (format : String) (target : Option FileSystemItem)
  | nullDeref
deriving DecidableEq, Repr

/-- `newModuleByFormat_` (`InteropService.ts:193-209`): look the descriptor
up by `(type, format)` with `outputFormat` as the only discriminator, throw
a descriptive error if none, else instantiate (custom factory or computed
implementation path) and attach the descriptor as metadata. -/
def newModuleByFormat_ (modules : List Module) (type : ModuleType) (format : String)
    (outputFormat : ImportModuleOutputFormat) : Except ResolveError Resolved :=
  match findModuleByFormat_ modules type format none (some outputFormat) with
  | none => Except.error (ResolveError.moduleNotFoundForOutput type format outputFormat)
  | some md =>
    Except.ok
      ⟨if md.instanceFactory then ImplKind.custom else ImplKind.classAt (modulePathOf md),
       ⟨none, md⟩⟩

/-- `newModuleFromPath_` (`InteropService.ts:219-242`): when no explicit
`modulePath` override is given, look the descriptor up by `(type, format)`
with `target` as discriminator, throw a descriptive error if none, and
compute the implementation path; then (in both cases) repeat the lookup and
dereference its result without a null check, instantiate, and attach the
descriptor merged with the original options as metadata. -/
def newModuleFromPath_ (modules : List Module) (type : ModuleType)
    (options : ResolveOptions) : Except ResolveError Resolved :=
  let step1 : Except ResolveError String :=
    if options.modulePath = "" then
      match findModuleByFormat_ modules type options.format options.target none with
      | none => Except.error (ResolveError.moduleNotFound type options.format options.target)
      | some md => Except.ok (modulePathOf md)
    else Except.ok options.modulePath
  match step1 with
  | Except.error e => Except.error e
  | Except.ok mp =>
    match findModuleByFormat_ modules type options.format options.target none with
    | none => Except.error ResolveError.nullDeref
    | some meta =>
      Except.ok
        ⟨if meta.instanceFactory then ImplKind.custom else ImplKind.classAt mp,
         ⟨some options, meta⟩⟩

/-- A store item as far as the interop core reads it: `id`, `title`, `body`
and the two encryption flags. -/
structure Item where
  id : String := ""
  title : String := ""
  body : String := ""
  encryption_applied : Bool := false
  encryption_blob_encrypted : Bool := false
deriving DecidableEq, Repr

/-- The recognized fields of `ImportOptions`: `path`, `format` (absent
meaning `"auto"`), `destinationFolderId`, `outputFormat`, `modulePath`
(empty string standing for absent). -/
structure ImportOptions where
  path : String := ""
  format : Option String := none
  destinationFolderId : Option String := none
  outputFormat : Option ImportModuleOutputFormat := none
  modulePath : String := ""
deriving DecidableEq, Repr

/-- The external collaborators `import` calls out to: the host
file-existence check (`shim.fsDriver().exists`), the path extension helper
(`fileExtension` from `lib/path-utils`), `Folder.load`, and the module
registry contents. -/
structure ImportEnv where
  pathExists : String → Bool
  fileExtension : String → String
  folderLoad : String → Option Item
  modules : List Module

/-- The accumulated run result: an ordered sequence of warning strings. -/
structure Result where
  warnings : List String
deriving DecidableEq, Repr

/-- The fatal errors `import` can throw before/while resolving a converter. -/
inductive ImportError
  | sourceNotFound (path : String)
  | formatUnspecified (path : String)
  | destinationNotFound (id : String)
  | resolve (e : ResolveError)
deriving DecidableEq, Repr

/-- The converter lifecycle calls an import run performs. -/
inductive ConvCall
  | init (path : String)
  | exec
deriving DecidableEq, Repr

/-- A successful import run: the resolved converter, the lifecycle calls
made on it in order, and the returned result. -/
structure ImportOutcome where
  importer : Resolved
  calls : List ConvCall
  result : Result
deriving DecidableEq, Repr

/-- The converter-resolution step of `import` (`InteropService.ts:286-290`)
for the format the run ended up with: an explicit `modulePath` takes
precedence (`newModuleFromPath_` with the full options), else
`newModuleByFormat_` with the defaulted output format. -/
def importResolution (env : ImportEnv) (options : ImportOptions) (fmt : String) :
    Except ResolveError Resolved :=
  if options.modulePath ≠ "" then
    newModuleFromPath_ env.modules ModuleType.importer ⟨fmt, none, options.modulePath⟩
  else
    newModuleByFormat_ env.modules ModuleType.importer fmt
      (options.outputFormat.getD ImportModuleOutputFormat.markdown)

/-- `import` (`InteropService.ts:258-296`): fail if the source path does not
exist; default the format to `"auto"` and sniff it from the file extension
(failing if no importer matches); load the destination folder if an id was
given (failing if unresolvable); resolve the converter
(`importResolution`); then call `init` and `exec` once each and return
`exec`'s result.  The converter's `exec` behaviour is abstracted as the
function `execF` on results. -/
def importRun (env : ImportEnv) (execF : Result → Result) (options : ImportOptions) :
    Except ImportError ImportOutcome :=
  if env.pathExists options.path = false then
    Except.error (ImportError.sourceNotFound options.path)
  else
    let fmt0 := options.format.getD "auto"
    let fmtStep : Except ImportError String :=
      if fmt0 = "auto" then
        match moduleByFileExtension_ env.modules ModuleType.importer
            (env.fileExtension options.path) with
        | none => Except.error (ImportError.formatUnspecified options.path)
        | some m => Except.ok m.format
      else Except.ok fmt0
    match fmtStep with
    | Except.error e => Except.error e
    | Except.ok fmt =>
      let destStep : Except ImportError Unit :=
        match options.destinationFolderId with
        | none => Except.ok ()
        | some fid =>
          match env.folderLoad fid with
          | none => Except.error (ImportError.destinationNotFound fid)
          | some _ => Except.ok ()
      match destStep with
      | Except.error e => Except.error e
      | Except.ok _ =>
        match importResolution env options fmt with
        | Except.error e => Except.error (ImportError.resolve e)
        | Except.ok imp =>
          Except.ok ⟨imp, [ConvCall.init options.path, ConvCall.exec], execF ⟨[]⟩⟩

/-- The five exported item kinds, in the naming of the underlying models:
`TYPE_FOLDER` (Container), `TYPE_RESOURCE` (Attachment), `TYPE_NOTE`
(Document), `TYPE_TAG` (Label), `TYPE_NOTE_TAG` (LabelAssignment). -/
inductive ItemType
  | folder
  | resource
  | note
  | tag
  | noteTag
deriving DecidableEq, Repr

/-- The payload of a queue entry: a bare id, or an already-loaded object
(`typeof itemOrId === 'object'`). -/
inductive ItemOrId
  | id (i : String)
  | item (it : Item)
deriving DecidableEq, Repr

/-- One entry of `itemsToExport` as built by `queueExportItem`
(`InteropService.ts:310-315`). -/
structure QueueEntry where
  type : ItemType
  itemOrId : ItemOrId
deriving DecidableEq, Repr

/-- A `note_tags` row as read by the export collection phase. -/
structure NoteTagRec where
  id : String := ""
  note_id : String := ""
  tag_id : String := ""
deriving DecidableEq, Repr

/-- The item store as the export pipeline reads it: folder enumeration
(`Folder.childrenIds`), per-folder note ids (`Folder.noteIds`), note
loading (`Note.load`, assumed to succeed for enumerated ids), linked
resource ids of a note body (`Note.linkedResourceIds`), the `note_tags`
table (`NoteTag.all`), dispatch-time loading by id (`ItemClass.load`,
which may fail), and resource payload paths (`Resource.fullPath`). -/
structure ExportStore where
  allFolderIds : List String
  folderChildrenIds : String → List String
  folderNoteIds : String → List String
  noteLoad : String → Item
  linkedResourceIds : String → List String
  noteTags : List NoteTagRec
  itemLoad : ItemType → String → Option Item
  resourceFullPath : Item → String

/-- Modelled from the spec: `ArrayUtils.unique` (not under `src/`),
"deduplicate the collected attachment ids": an element is kept exactly when
it has not occurred before, so the first occurrence of each element
survives, in order. -/
def uniqueFirstAux (seen : List String) : List String → List String
  | [] => []
  | a :: l =>
    if seen.contains a then uniqueFirstAux seen l
    else a :: uniqueFirstAux (a :: seen) l

/-- Modelled from the spec: `ArrayUtils.unique` run with nothing seen yet. -/
def uniqueFirst (l : List String) : List String :=
  uniqueFirstAux [] l

/-- The expansion of the source folder filter to its transitive descendant
closure (`InteropService.ts:323-329`). -/
def fullSourceFolderIds (store : ExportStore) (sourceFolderIds : List String) : List String :=
  sourceFolderIds ++ sourceFolderIds.flatMap store.folderChildrenIds

/-- The folder filter of the collection loop (`InteropService.ts:333`): a
folder passes when the (expanded) filter is empty or contains its id. -/
def folderKept (srcF : List String) (folderId : String) : Bool :=
  srcF.isEmpty || srcF.contains folderId

/-- The note filter of the collection loop (`InteropService.ts:341`). -/
def noteKept (srcN : List String) (noteId : String) : Bool :=
  srcN.isEmpty || srcN.contains noteId

/-- The note ids of one folder that pass the note filter. -/
def keptNoteIds (store : ExportStore) (srcN : List String) (folderId : String) : List String :=
  (store.folderNoteIds folderId).filter (noteKept srcN)

/-- The Container and Document entries enqueued by the folder loop
(`InteropService.ts:331-349`): per passing folder, the folder itself (only
when no note filter is active) followed by its passing notes, each carried
as an already-loaded object. -/
def collectFolderEntries (store : ExportStore) (srcF srcN : List String) : List QueueEntry :=
  (store.allFolderIds.filter (folderKept srcF)).flatMap fun folderId =>
    (if srcN.isEmpty then [QueueEntry.mk ItemType.folder (ItemOrId.id folderId)] else [])
    ++ (keptNoteIds store srcN folderId).map
        (fun noteId => QueueEntry.mk ItemType.note (ItemOrId.item (store.noteLoad noteId)))

/-- The `exportedNoteIds` accumulated by the folder loop
(`InteropService.ts:344`). -/
def exportedNoteIds (store : ExportStore) (srcF srcN : List String) : List String :=
  (store.allFolderIds.filter (folderKept srcF)).flatMap (keptNoteIds store srcN)

/-- The `resourceIds` accumulated by the folder loop before deduplication
(`InteropService.ts:346-347`): the linked resource ids of every exported
note's body, in visit order. -/
def collectedResourceIds (store : ExportStore) (srcF srcN : List String) : List String :=
  (exportedNoteIds store srcF srcN).flatMap
    (fun noteId => store.linkedResourceIds (store.noteLoad noteId).body)

/-- The `note_tags` rows whose owning note was exported
(`InteropService.ts:361-366`). -/
def exportedNoteTags (store : ExportStore) (en : List String) : List NoteTagRec :=
  store.noteTags.filter (fun nt => en.contains nt.note_id)

/-- The collection phase of `export` (`InteropService.ts:304-370`): the full
`itemsToExport` queue, in enqueue order — Container/Document entries from
the folder loop, one Attachment entry per deduplicated resource id, one
LabelAssignment entry per exported `note_tags` row, then one Label entry
per element of `exportedTagIds` (which is *not* deduplicated). -/
def collectQueue (store : ExportStore) (sourceFolderIds sourceNoteIds : List String) :
    List QueueEntry :=
  let srcF := fullSourceFolderIds store sourceFolderIds
  let en := exportedNoteIds store srcF sourceNoteIds
  collectFolderEntries store srcF sourceNoteIds
  ++ (uniqueFirst (collectedResourceIds store srcF sourceNoteIds)).map
      (fun rid => QueueEntry.mk ItemType.resource (ItemOrId.id rid))
  ++ (exportedNoteTags store en).map
      (fun nt => QueueEntry.mk ItemType.noteTag (ItemOrId.id nt.id))
  ++ ((exportedNoteTags store en).map (fun nt => nt.tag_id)).map
      (fun tid => QueueEntry.mk ItemType.tag (ItemOrId.id tid))

/-- Modelled from the spec: `BaseItem.getClassByItemType(...).tableName()`
(models are not under `src/`), used in the "Cannot find item" warning. -/
def tableName : ItemType → String
  | ItemType.folder => "folders"
  | ItemType.resource => "resources"
  | ItemType.note => "notes"
  | ItemType.tag => "tags"
  | ItemType.noteTag => "note_tags"

/-- Modelled from the spec: `BaseModel.modelTypeToName` (not under `src/`),
used in the "currently encrypted" warning to name the item's kind. -/
def modelTypeToName : ItemType → String
  | ItemType.folder => "folder"
  | ItemType.resource => "resource"
  | ItemType.note => "note"
  | ItemType.tag => "tag"
  | ItemType.noteTag => "note_tag"

/-- The warning for an Attachment entry whose resource cannot be loaded
(`InteropService.ts:396`). -/
def resourceMissingWarning (rid : String) : String :=
  "A resource that does not exist is referenced in a note. The resource was skipped. Resource ID: "
  ++ rid

/-- The warning for any other entry whose backing object cannot be loaded
(`InteropService.ts:398`); the id is rendered through `JSON.stringify`. -/
def itemMissingWarning (t : ItemType) (i : String) : String :=
  "Cannot find item with type \"" ++ tableName t ++ "\" and ID \"" ++ i
  ++ "\". Item was skipped."

/-- The warning for a still-encrypted item (`InteropService.ts:404`). -/
def encryptedWarning (t : ItemType) (it : Item) : String :=
  "This item is currently encrypted: " ++ modelTypeToName t ++ " \""
  ++ (if it.title ≠ "" then it.title else it.id) ++ "\" (" ++ it.id
  ++ ") and was not exported. You may wait for it to be decrypted and try again."

/-- The converter calls and warnings one export run produces, in order. -/
inductive Event
  | prepare (t : ItemType) (queue : List QueueEntry)
  | warning (msg : String)
  | updateContext
  | processResource (it : Item) (path : String)
  | processItem (t : ItemType) (it : Item)
  | close
deriving DecidableEq, Repr

/-- The failure behaviour of the pluggable exporter: for each converter
call that the pipeline wraps in `try`/`catch`, either `none` (the call
returns) or `some msg` (the call throws an error with message `msg`). -/
structure ExporterModel where
  processResourceError : Item → String → Option String
  processItemError : ItemType → Item → Option String

/-- Resolving a queue entry to a live object (`InteropService.ts:392`):
an already-loaded object is used as is, a bare id goes through the model
class's `load`. -/
def resolveEntryItem (store : ExportStore) (e : QueueEntry) : Option Item :=
  match e.itemOrId with
  | ItemOrId.item it => some it
  | ItemOrId.id i => store.itemLoad e.type i

/-- The events produced for one resolved item (`InteropService.ts:403-420`):
skip with a warning when still encrypted; for an Attachment, merge the
payload path into the context, call `updateContext` then `processResource`
(its error aborts only this entry); then `processItem`, whose error is
likewise caught and turned into a warning. -/
def processLoaded (store : ExportStore) (exp : ExporterModel) (t : ItemType) (it : Item) :
    List Event :=
  if it.encryption_applied || it.encryption_blob_encrypted then
    [Event.warning (encryptedWarning t it)]
  else if t = ItemType.resource then
    let path := store.resourceFullPath it
    Event.updateContext :: Event.processResource it path ::
      (match exp.processResourceError it path with
       | some msg => [Event.warning msg]
       | none =>
         Event.processItem t it ::
           (match exp.processItemError t it with
            | some msg => [Event.warning msg]
            | none => []))
  else
    Event.processItem t it ::
      (match exp.processItemError t it with
       | some msg => [Event.warning msg]
       | none => [])

/-- The events produced for one queue entry (`InteropService.ts:390-420`):
a missing backing object yields one warning (with Attachment-specific
wording) and nothing else; otherwise the item is processed. -/
def processEntry (store : ExportStore) (exp : ExporterModel) (e : QueueEntry) : List Event :=
  match e.itemOrId with
  | ItemOrId.item it => processLoaded store exp e.type it
  | ItemOrId.id i =>
    match store.itemLoad e.type i with
    | none =>
      if e.type = ItemType.resource then [Event.warning (resourceMissingWarning i)]
      else [Event.warning (itemMissingWarning e.type i)]
    | some it => processLoaded store exp e.type it

/-- The fixed type-priority order of the dispatch loop
(`InteropService.ts:375`). -/
def typeOrder : List ItemType :=
  [ItemType.folder, ItemType.resource, ItemType.note, ItemType.tag, ItemType.noteTag]

/-- The position of a type in `typeOrder`. -/
def typeIdx : ItemType → Nat
  | ItemType.folder => 0
  | ItemType.resource => 1
  | ItemType.note => 2
  | ItemType.tag => 3
  | ItemType.noteTag => 4

/-- The events of the inner dispatch loop for one type
(`InteropService.ts:385-421`): the queue entries of that type, in original
enqueue order, each expanded to its events. -/
def entriesEvents (store : ExportStore) (exp : ExporterModel) (queue : List QueueEntry)
    (t : ItemType) : List Event :=
  (queue.filter (fun e => e.type == t)).flatMap (processEntry store exp)

/-- One iteration of the outer dispatch loop (`InteropService.ts:380-421`):
the `prepareForProcessingItemType` call for this type, with the entire
all-types queue, followed by this type's entries. -/
def typeEvents (store : ExportStore) (exp : ExporterModel) (queue : List QueueEntry)
    (t : ItemType) : List Event :=
  Event.prepare t queue :: entriesEvents store exp queue t

/-- The full dispatch phase of `export` (`InteropService.ts:380-424`): the
outer loop over the fixed type order, and a single final `close`. -/
def dispatchEvents (store : ExportStore) (exp : ExporterModel) (queue : List QueueEntry) :
    List Event :=
  (typeOrder.flatMap fun t => typeEvents store exp queue t) ++ [Event.close]

/-- Projecting a warning event to its message. -/
def warningOf : Event → Option String
  | Event.warning m => some m
  | _ => none

/-- The result accumulated by an export dispatch over a collected queue:
the warnings pushed during the run, in detection order
(`result.warnings.push`, returned at `InteropService.ts:426`). -/
def exportResult (store : ExportStore) (exp : ExporterModel) (queue : List QueueEntry) :
    Result :=
  ⟨(dispatchEvents store exp queue).filterMap warningOf⟩

/-- The item for which `processItem` is invoked when one queue entry is
dispatched, if any: the entry must resolve, must not be encrypted, and (for
an Attachment) `processResource` must not have thrown. -/
def entryProcessedItem (store : ExportStore) (exp : ExporterModel) (e : QueueEntry) :
    Option Item :=
  match resolveEntryItem store e with
  | none => none
  | some it =>
    if it.encryption_applied || it.encryption_blob_encrypted then none
    else if e.type = ItemType.resource then
      match exp.processResourceError it (store.resourceFullPath it) with
      | some _ => none
      | none => some it
    else some it

/-- Projecting a `processItem` event of one given type to its item. -/
def procItemOf (t : ItemType) : Event → Option Item
  | Event.processItem t' it => if t' == t then some it else none
  | _ => none

/-- The candidate-keeping rule in the words of claim C2 / spec section 4.1:
with neither discriminator every type-and-format match is kept; with
`target` supplied, keep modules whose `target` equals it; with
`outputFormat` supplied, keep modules whose `outputFormat` equals it.  This
spec-side definition is compared with the source-side `matchCond`. -/
def c2SpecKeep (target : Option FileSystemItem)
    (outputFormat : Option ImportModuleOutputFormat) (m : Module) : Bool :=
  match target, outputFormat with
  | none, none => true
  | some tv, _ => m.target == some tv
  | none, some f => m.outputFormat == f

/-- The candidate set in the words of claim C2: modules with equal type and
format, further filtered by the supplied discriminator. -/
def c2Candidates (modules : List Module) (type : ModuleType) (format : String)
    (target : Option FileSystemItem) (outputFormat : Option ImportModuleOutputFormat) :
    List Module :=
  modules.filter
    (fun m => m.type == type && m.format == format && c2SpecKeep target outputFormat m)

/-- The throw condition asserted by claim C6, in the spec's words: the
source path does not exist; or the (defaulted) format is `"auto"` and no
importer's extension set matches the path's extension; or a destination
container id is given but cannot be loaded. -/
def importThrowCondClaimed (env : ImportEnv) (options : ImportOptions) : Prop :=
  env.pathExists options.path = false
  ∨ (options.format.getD "auto" = "auto"
      ∧ moduleByFileExtension_ env.modules ModuleType.importer
          (env.fileExtension options.path) = none)
  ∨ (∃ fid, options.destinationFolderId = some fid ∧ env.folderLoad fid = none)

/-- The format an import run ends up using: the sniffed module's format
when the (defaulted) format is `"auto"`, else the explicit format; `none`
when sniffing fails. -/
def importResolvedFormat (env : ImportEnv) (options : ImportOptions) : Option String :=
  if options.format.getD "auto" = "auto" then
    (moduleByFileExtension_ env.modules ModuleType.importer
      (env.fileExtension options.path)).map (fun m => m.format)
  else some (options.format.getD "auto")

/-- Converter resolution failure for a given resolved format: with an
explicit module path, `newModuleFromPath_` fails; otherwise
`newModuleByFormat_` finds no module for the format and output format. -/
def importResolveFails (env : ImportEnv) (options : ImportOptions) (fmt : String) : Prop :=
  ∃ e, importResolution env options fmt = Except.error e

/-- The amended throw condition for `import`: the three claimed cases plus
converter-resolution failure for the resolved format. -/
def importThrowCondAmended (env : ImportEnv) (options : ImportOptions) : Prop :=
  importThrowCondClaimed env options
  ∨ (∃ fmt, importResolvedFormat env options = some fmt ∧ importResolveFails env options fmt)

/-- Fixture for claim C1: one folder with one note, and two label
assignments of that note that both reference the same label id `"t"`. -/
def c1Store : ExportStore where
  allFolderIds := ["f"]
  folderChildrenIds := fun _ => []
  folderNoteIds := fun _ => ["n"]
  noteLoad := fun nid => { id := nid }
  linkedResourceIds := fun _ => []
  noteTags := [⟨"a", "n", "t"⟩, ⟨"b", "n", "t"⟩]
  itemLoad := fun _ _ => none
  resourceFullPath := fun _ => ""

/-- Fixture for claim C2: two importer descriptors for the same format, the
default one listed second. -/
def c2Mods : List Module :=
  [{ type := ModuleType.importer, format := "enex",
     outputFormat := ImportModuleOutputFormat.html },
   { type := ModuleType.importer, format := "enex", isDefault := true }]

/-- Fixture for claim C9: one enex importer listing the `enex` extension. -/
def c9Mods : List Module :=
  [{ type := ModuleType.importer, format := "enex", fileExtensions := ["enex"],
     sources := [FileSystemItem.file],
     importerClass := some "InteropService_Importer_EnexToMd", isDefault := true }]

/-- Fixture for claim C5: one exporter descriptor targeting a single file. -/
def c5Mods : List Module :=
  [{ type := ModuleType.exporter, format := "jex", fileExtensions := ["jex"],
     target := some FileSystemItem.file, canDoMultiExport := true }]

/-- Fixture for claim C5: export options carrying an explicit
implementation-path override. -/
def c5Options : ResolveOptions :=
  { format := "jex", target := some FileSystemItem.file, modulePath := "/plugins/MyJex" }

/-- Fixture for claim C6's counterexample: the source path exists, the
format is explicit, no destination is given — and the registry is empty, so
resolution fails with a module-not-found error. -/
def c6Env : ImportEnv where
  pathExists := fun _ => true
  fileExtension := fun _ => "xyz"
  folderLoad := fun _ => none
  modules := []

/-- Fixture for claim C6's counterexample: an explicit, unregistered format. -/
def c6Options : ImportOptions := { path := "a.xyz", format := some "xyz" }

/-- Fixture for claim C6's witness: a registry holding one markdown
importer matching the `.md` extension. -/
def c6OkEnv : ImportEnv where
  pathExists := fun _ => true
  fileExtension := fun _ => "md"
  folderLoad := fun _ => none
  modules := [{ type := ModuleType.importer, format := "md",
                fileExtensions := ["md", "markdown", "txt"],
                sources := [FileSystemItem.file, FileSystemItem.directory],
                isNoteArchive := false }]

/-- Fixture for claim C6's witness: an auto-format import of `x.md`. -/
def c6OkOptions : ImportOptions := { path := "x.md" }

/-- Fixture for claim C8's witness: two folders, two notes in the first,
the resource `"r1"` referenced by both notes. -/
def c8Store : ExportStore where
  allFolderIds := ["f1", "f2"]
  folderChildrenIds := fun _ => []
  folderNoteIds := fun fid => if fid = "f1" then ["n1", "n2"] else []
  noteLoad := fun nid => { id := nid, body := nid }
  linkedResourceIds := fun b => if b = "n1" then ["r1", "r2"] else if b = "n2" then ["r1"] else []
  noteTags := []
  itemLoad := fun _ _ => none
  resourceFullPath := fun _ => ""

/-- Fixture shared by the dispatch-phase witnesses: dispatch-time loading
always fails (exercising the missing-item warnings). -/
def wStore : ExportStore where
  allFolderIds := []
  folderChildrenIds := fun _ => []
  folderNoteIds := fun _ => []
  noteLoad := fun nid => { id := nid }
  linkedResourceIds := fun _ => []
  noteTags := []
  itemLoad := fun _ _ => none
  resourceFullPath := fun it => "/res/" ++ it.id

/-- Fixture shared by the dispatch-phase witnesses: `processItem` throws
`"boom"` on the item with id `"n"`, everything else succeeds. -/
def wExp : ExporterModel where
  processResourceError := fun _ _ => none
  processItemError := fun _ it => if it.id = "n" then some "boom" else none

/-- Fixture shared by the dispatch-phase witnesses: a healthy resource, a
missing resource id, a healthy note (whose `processItem` throws), an
encrypted note, and a missing label id. -/
def wQueue : List QueueEntry :=
  [⟨ItemType.resource, ItemOrId.item { id := "r" }⟩,
   ⟨ItemType.resource, ItemOrId.id "rmiss"⟩,
   ⟨ItemType.note, ItemOrId.item { id := "n" }⟩,
   ⟨ItemType.note, ItemOrId.item { id := "enc", encryption_applied := true }⟩,
   ⟨ItemType.tag, ItemOrId.id "tmiss"⟩]

/-! ## Helper lemmas for the registry and resolver -/

theorem foldl_push_eq_filter {α : Type} (p : α → Bool) (l acc : List α) :
    l.foldl (fun a m => if p m then a ++ [m] else a) acc = acc ++ l.filter p := by
  induction l generalizing acc with
  | nil => simp
  | cons x xs ih =>
    by_cases h : p x
    · simp [h, ih, List.filter_cons]
    · simp [h, ih, List.filter_cons]

theorem matchCond_eq_spec (type : ModuleType) (format : String)
    (target : Option FileSystemItem) (outputFormat : Option ImportModuleOutputFormat)
    (hx : target = none ∨ outputFormat = none) (m : Module) :
    matchCond type format target outputFormat m
      = (m.type == type && m.format == format && c2SpecKeep target outputFormat m) := by
  rw [Bool.eq_iff_iff]
  rcases hx with h | h <;> subst h
  · cases outputFormat with
    | none => simp [matchCond, c2SpecKeep]; tauto
    | some f =>
      simp [matchCond, c2SpecKeep]
      constructor <;> (intro hh; simp_all)
  · cases target with
    | none => simp [matchCond, c2SpecKeep]; tauto
    | some tv =>
      simp [matchCond, c2SpecKeep]
      constructor <;> (intro hh; simp_all)

theorem findModuleByFormat_eq_candidates (modules : List Module) (type : ModuleType)
    (format : String) (target : Option FileSystemItem)
    (outputFormat : Option ImportModuleOutputFormat)
    (hx : target = none ∨ outputFormat = none) :
    findModuleByFormat_ modules type format target outputFormat
      = ((c2Candidates modules type format target outputFormat).find?
          (fun m => m.isDefault)).or
        (c2Candidates modules type format target outputFormat).head? := by
  rw [findModuleByFormat_]
  have h1 : modules.foldl
      (fun acc m => if matchCond type format target outputFormat m then acc ++ [m] else acc) []
      = c2Candidates modules type format target outputFormat := by
    rw [foldl_push_eq_filter (fun m => matchCond type format target outputFormat m) modules []]
    rw [List.nil_append, c2Candidates]
    exact List.filter_congr (fun m _ => matchCond_eq_spec type format target outputFormat hx m)
  rw [h1]
  cases (c2Candidates modules type format target outputFormat).find? (fun m => m.isDefault) with
  | none => simp [Option.or]
  | some d => simp [Option.or]

theorem mbfeLoop_eq_find? (type : ModuleType) (e : String) (l : List Module) :
    mbfeLoop type e l = l.find? (fun m => m.type == type && m.fileExtensions.contains e) := by
  induction l with
  | nil => rfl
  | cons m rest ih =>
    rw [mbfeLoop]
    by_cases h1 : m.type = type
    · by_cases h2 : m.fileExtensions.contains e
      · rw [if_neg (by simp [h1]), if_pos h2,
          List.find?_cons_of_pos _ (by simp [h1]; simpa using h2)]
      · rw [if_neg (by simp [h1]), if_neg h2, ih,
          List.find?_cons_of_neg _ (by simp [h1]; simpa using h2)]
    · rw [if_pos (by simp [h1]), ih, List.find?_cons_of_neg _ (by simp [h1])]

/-! ## Claims C2, C9, C5, C10 -/

/-- Claim C2: for every module list, `findModuleByFormat_(type, format,
target, outputFormat)` first keeps modules with equal type and format; with
neither discriminator every such module is a candidate; with `target`
supplied it keeps modules whose target equals it; with `outputFormat`
supplied it keeps modules whose output format equals it; among the
candidates it returns the first with `isDefault = true` regardless of
position, otherwise the first candidate in list order, and "not found" when
the candidate set is empty.  (The two discriminators are mutually
exclusive per call.) -/
theorem c2_findModuleByFormat (modules : List Module) (type : ModuleType) (format : String)
    (target : Option FileSystemItem) (outputFormat : Option ImportModuleOutputFormat)
    (hx : target = none ∨ outputFormat = none) :
    (findModuleByFormat_ modules type format target outputFormat
      = ((c2Candidates modules type format target outputFormat).find?
          (fun m => m.isDefault)).or
        (c2Candidates modules type format target outputFormat).head?)
    ∧ (c2Candidates modules type format target outputFormat = [] →
        findModuleByFormat_ modules type format target outputFormat = none)
    ∧ (∀ m ∈ c2Candidates modules type format target outputFormat, m.isDefault = true →
        ∃ d, findModuleByFormat_ modules type format target outputFormat = some d
          ∧ d.isDefault = true) := by
  have heq := findModuleByFormat_eq_candidates modules type format target outputFormat hx
  refine ⟨heq, ?_, ?_⟩
  · intro hnil
    rw [heq, hnil]
    rfl
  · intro m hm hd
    have hsome : ((c2Candidates modules type format target outputFormat).find?
        (fun m => m.isDefault)).isSome := by
      rw [List.find?_isSome]
      exact ⟨m, hm, hd⟩
    obtain ⟨d, hfind⟩ := Option.isSome_iff_exists.mp hsome
    refine ⟨d, ?_, by simpa using List.find?_some hfind⟩
    rw [heq, hfind]
    rfl

/-- Witness for claim C2: on a registry holding a non-default enex importer
followed by the default one, the lookup returns the `isDefault` module even
though it is listed second. -/
theorem c2_findModuleByFormat_witness :
    ∃ d, findModuleByFormat_ c2Mods ModuleType.importer "enex" none none = some d
      ∧ d.isDefault = true :=
  (c2_findModuleByFormat c2Mods ModuleType.importer "enex" none none (Or.inl rfl)).2.2
    { type := ModuleType.importer, format := "enex", isDefault := true } (by decide) rfl

/-- Claim C9: `moduleByFileExtension_(type, ext)` is a scan over the
modules, case-insensitive in its extension argument, returning the first
module of the given type (in list order) whose extension set contains the
lower-cased extension; lookups whose arguments agree up to case return the
same module, and no match yields "not found". -/
theorem c9_moduleByFileExtension (modules : List Module) (type : ModuleType) (ext : String) :
    (moduleByFileExtension_ modules type ext
      = modules.find? (fun m => m.type == type && m.fileExtensions.contains (lowerStr ext)))
    ∧ (∀ e₂ : String, lowerStr ext = lowerStr e₂ →
        moduleByFileExtension_ modules type ext = moduleByFileExtension_ modules type e₂)
    ∧ ((∀ m ∈ modules, m.type = type → lowerStr ext ∉ m.fileExtensions) →
        moduleByFileExtension_ modules type ext = none) := by
  refine ⟨mbfeLoop_eq_find? type (lowerStr ext) modules, ?_, ?_⟩
  · intro e₂ he
    rw [moduleByFileExtension_, moduleByFileExtension_, he]
  · intro h
    rw [moduleByFileExtension_, mbfeLoop_eq_find? type (lowerStr ext) modules]
    rw [List.find?_eq_none]
    intro m hm
    by_cases hty : m.type = type
    · simp [hty]
      exact h m hm hty
    · simp [hty]

/-- Witness for claim C9: on a registry holding the enex importer, looking
up `"ENEX"` and `"enex"` returns the same module, and the lookup succeeds. -/
theorem c9_moduleByFileExtension_witness :
    moduleByFileExtension_ c9Mods ModuleType.importer "ENEX"
      = moduleByFileExtension_ c9Mods ModuleType.importer "enex"
    ∧ (moduleByFileExtension_ c9Mods ModuleType.importer "ENEX").isSome = true :=
  ⟨(c9_moduleByFileExtension c9Mods ModuleType.importer "ENEX").2.1 "enex" (by decide),
   by decide⟩

/-- Claim C5: in `newModuleFromPath_`, descriptor lookup uses `target` (not
`outputFormat`) as discriminator; with an explicit implementation-path
override in the options the computed-name step is bypassed entirely (the
instance is loaded from the override path), while the metadata passed to
`setMetadata` is still the matched descriptor together with the options;
without an override the computed implementation path of the matched
descriptor is used. -/
theorem c5_resolveByPath (modules : List Module) (type : ModuleType)
    (options : ResolveOptions) (m : Module)
    (hm : findModuleByFormat_ modules type options.format options.target none = some m) :
    (options.modulePath ≠ "" →
      newModuleFromPath_ modules type options
        = Except.ok ⟨if m.instanceFactory then ImplKind.custom
            else ImplKind.classAt options.modulePath, ⟨some options, m⟩⟩)
    ∧ (options.modulePath = "" →
      newModuleFromPath_ modules type options
        = Except.ok ⟨if m.instanceFactory then ImplKind.custom
            else ImplKind.classAt (modulePathOf m), ⟨some options, m⟩⟩) := by
  constructor
  · intro hp
    simp [newModuleFromPath_, hp, hm]
  · intro hp
    simp [newModuleFromPath_, hp, hm]

/-- Witness for claim C5: resolving the jex exporter with an explicit
override path loads the instance from the override while the metadata still
carries the matched descriptor and the options. -/
theorem c5_resolveByPath_witness :
    newModuleFromPath_ c5Mods ModuleType.exporter c5Options
      = Except.ok ⟨ImplKind.classAt "/plugins/MyJex",
          ⟨some c5Options,
           { type := ModuleType.exporter, format := "jex", fileExtensions := ["jex"],
             target := some FileSystemItem.file, canDoMultiExport := true }⟩⟩ := by
  have h := (c5_resolveByPath c5Mods ModuleType.exporter c5Options
      { type := ModuleType.exporter, format := "jex", fileExtensions := ["jex"],
        target := some FileSystemItem.file, canDoMultiExport := true }
      (by decide)).1 (by decide)
  simpa using h

/-- Claim C10: with a non-empty `options.modulePath`, the descriptor lookup
is still performed and its result dereferenced without a null check, so
when no descriptor matches, `newModuleFromPath_` fails with the
null-dereference error rather than the descriptive module-not-found error. -/
theorem c10_pathOverride_nullDeref (modules : List Module) (type : ModuleType)
    (options : ResolveOptions) (hp : options.modulePath ≠ "")
    (hnone : findModuleByFormat_ modules type options.format options.target none = none) :
    newModuleFromPath_ modules type options = Except.error ResolveError.nullDeref := by
  simp [newModuleFromPath_, hp, hnone]

/-- Witness for claim C10: an empty registry with an explicit override path
fails with the null-dereference error. -/
theorem c10_pathOverride_nullDeref_witness :
    newModuleFromPath_ [] ModuleType.importer ⟨"md", none, "/plugins/X"⟩
      = Except.error ResolveError.nullDeref :=
  c10_pathOverride_nullDeref [] ModuleType.importer ⟨"md", none, "/plugins/X"⟩
    (by decide) rfl

/-! ## Claim C6 -/

theorem c6_leaf (env : ImportEnv) (execF : Result → Result) (options : ImportOptions)
    (fmt : String) (hfmt : importResolvedFormat env options = some fmt)
    (hclaimed : ¬ importThrowCondClaimed env options)
    (hrun : importRun env execF options
      = (match importResolution env options fmt with
         | Except.error e => Except.error (ImportError.resolve e)
         | Except.ok imp =>
           Except.ok ⟨imp, [ConvCall.init options.path, ConvCall.exec], execF ⟨[]⟩⟩)) :
    ((∃ e, importRun env execF options = Except.error e)
      ↔ importThrowCondAmended env options)
    ∧ (∀ o, importRun env execF options = Except.ok o →
        o.calls = [ConvCall.init options.path, ConvCall.exec]
        ∧ o.result = execF ⟨[]⟩) := by
  cases hres : importResolution env options fmt with
  | error e =>
    rw [hres] at hrun
    constructor
    · constructor
      · intro _
        exact Or.inr ⟨fmt, hfmt, e, hres⟩
      · intro _
        exact ⟨ImportError.resolve e, hrun⟩
    · intro o ho
      rw [hrun] at ho
      exact Except.noConfusion ho
  | ok imp =>
    rw [hres] at hrun
    constructor
    · constructor
      · rintro ⟨e, he⟩
        rw [hrun] at he
        exact Except.noConfusion he
      · intro hcond
        rcases hcond with hc | ⟨fmt', hfmt', e, hfail⟩
        · exact absurd hc hclaimed
        · rw [hfmt] at hfmt'
          cases hfmt'
          rw [hres] at hfail
          exact Except.noConfusion hfail
    · intro o ho
      rw [hrun] at ho
      cases ho
      exact ⟨rfl, rfl⟩

/-- Claim C6 (counterexample): with an existing source path, an explicit
but unregistered format, and no destination, `import` still throws before
any converter call, although none of the three throw conditions asserted by
the claim holds. -/
theorem c6_import_counterexample :
    (∃ e, importRun c6Env id c6Options = Except.error e)
    ∧ ¬ importThrowCondClaimed c6Env c6Options := by
  constructor
  · exact ⟨ImportError.resolve (ResolveError.moduleNotFoundForOutput ModuleType.importer
      "xyz" ImportModuleOutputFormat.markdown), rfl⟩
  · intro h
    rcases h with h | ⟨h1, _⟩ | ⟨fid, h1, _⟩
    · simp [c6Env] at h
    · simp [c6Options] at h1
    · simp [c6Options] at h1

/-- Claim C6 (amended): `import(options)` throws before any converter call
exactly when the source path does not exist, or the format is `"auto"` (the
default) and no importer's extension set matches the path's extension, or a
destination container id is given but cannot be loaded, or converter
resolution for the resolved format fails (no module matches the format and
output format, or the lookup under an explicit module path fails);
otherwise it resolves a converter, calls `init` then `exec` once each, and
returns `exec`'s result. -/
theorem c6_import_throws_iff (env : ImportEnv) (execF : Result → Result)
    (options : ImportOptions) :
    ((∃ e, importRun env execF options = Except.error e)
      ↔ importThrowCondAmended env options)
    ∧ (∀ o, importRun env execF options = Except.ok o →
        o.calls = [ConvCall.init options.path, ConvCall.exec]
        ∧ o.result = execF ⟨[]⟩) := by
  cases hpe : env.pathExists options.path with
  | false =>
    constructor
    · constructor
      · intro _
        exact Or.inl (Or.inl hpe)
      · intro _
        exact ⟨ImportError.sourceNotFound options.path, by simp [importRun, hpe]⟩
    · intro o ho
      simp [importRun, hpe] at ho
  | true =>
    by_cases hauto : options.format.getD "auto" = "auto"
    · cases hm : moduleByFileExtension_ env.modules ModuleType.importer
          (env.fileExtension options.path) with
      | none =>
        constructor
        · constructor
          · intro _
            exact Or.inl (Or.inr (Or.inl ⟨hauto, hm⟩))
          · intro _
            exact ⟨ImportError.formatUnspecified options.path,
              by simp [importRun, hpe, hauto, hm]⟩
        · intro o ho
          simp [importRun, hpe, hauto, hm] at ho
      | some md =>
        have hfmt : importResolvedFormat env options = some md.format := by
          simp [importResolvedFormat, hauto, hm]
        cases hdo : options.destinationFolderId with
        | none =>
          have hclaimed : ¬ importThrowCondClaimed env options := by
            intro h
            rcases h with h | ⟨_, h2⟩ | ⟨fid, h1, _⟩
            · rw [hpe] at h
              exact Bool.noConfusion h
            · rw [hm] at h2
              exact Option.noConfusion h2
            · rw [hdo] at h1
              exact Option.noConfusion h1
          exact c6_leaf env execF options md.format hfmt hclaimed
            (by simp [importRun, hpe, hauto, hm, hdo])
        | some fid =>
          cases hf : env.folderLoad fid with
          | none =>
            constructor
            · constructor
              · intro _
                exact Or.inl (Or.inr (Or.inr ⟨fid, hdo, hf⟩))
              · intro _
                exact ⟨ImportError.destinationNotFound fid,
                  by simp [importRun, hpe, hauto, hm, hdo, hf]⟩
            · intro o ho
              simp [importRun, hpe, hauto, hm, hdo, hf] at ho
          | some fld =>
            have hclaimed : ¬ importThrowCondClaimed env options := by
              intro h
              rcases h with h | ⟨_, h2⟩ | ⟨fid', h1, h2⟩
              · rw [hpe] at h
                exact Bool.noConfusion h
              · rw [hm] at h2
                exact Option.noConfusion h2
              · rw [hdo] at h1
                cases h1
                rw [hf] at h2
                exact Option.noConfusion h2
            exact c6_leaf env execF options md.format hfmt hclaimed
              (by simp [importRun, hpe, hauto, hm, hdo, hf])
    · have hfmt : importResolvedFormat env options = some (options.format.getD "auto") := by
        simp [importResolvedFormat, hauto]
      cases hdo : options.destinationFolderId with
      | none =>
        have hclaimed : ¬ importThrowCondClaimed env options := by
          intro h
          rcases h with h | ⟨h1, _⟩ | ⟨fid, h1, _⟩
          · rw [hpe] at h
            exact Bool.noConfusion h
          · exact hauto h1
          · rw [hdo] at h1
            exact Option.noConfusion h1
        exact c6_leaf env execF options (options.format.getD "auto") hfmt hclaimed
          (by simp [importRun, hpe, hauto, hdo])
      | some fid =>
        cases hf : env.folderLoad fid with
        | none =>
          constructor
          · constructor
            · intro _
              exact Or.inl (Or.inr (Or.inr ⟨fid, hdo, hf⟩))
            · intro _
              exact ⟨ImportError.destinationNotFound fid,
                by simp [importRun, hpe, hauto, hdo, hf]⟩
          · intro o ho
            simp [importRun, hpe, hauto, hdo, hf] at ho
        | some fld =>
          have hclaimed : ¬ importThrowCondClaimed env options := by
            intro h
            rcases h with h | ⟨h1, _⟩ | ⟨fid', h1, h2⟩
            · rw [hpe] at h
              exact Bool.noConfusion h
            · exact hauto h1
            · rw [hdo] at h1
              cases h1
              rw [hf] at h2
              exact Option.noConfusion h2
          exact c6_leaf env execF options (options.format.getD "auto") hfmt hclaimed
            (by simp [importRun, hpe, hauto, hdo, hf])

/-- Witness for claim C6 (amended): an auto-format import of `x.md` against
a registry holding the markdown importer succeeds, with `init` then `exec`
called once each and the initial result returned. -/
theorem c6_import_throws_iff_witness :
    (∃ o, importRun c6OkEnv id c6OkOptions = Except.ok o
      ∧ o.calls = [ConvCall.init "x.md", ConvCall.exec] ∧ o.result = ⟨[]⟩)
    ∧ ¬ importThrowCondAmended c6OkEnv c6OkOptions := by
  have ho : importRun c6OkEnv id c6OkOptions
      = Except.ok ⟨⟨ImplKind.classAt "lib/services/interop/InteropService_Importer_Md",
          ⟨none, { type := ModuleType.importer, format := "md",
                   fileExtensions := ["md", "markdown", "txt"],
                   sources := [FileSystemItem.file, FileSystemItem.directory],
                   isNoteArchive := false }⟩⟩,
         [ConvCall.init "x.md", ConvCall.exec], ⟨[]⟩⟩ := by rfl
  constructor
  · have h := (c6_import_throws_iff c6OkEnv id c6OkOptions).2 _ ho
    exact ⟨_, ho, h.1, h.2⟩
  · intro h
    obtain ⟨e, he⟩ := (c6_import_throws_iff c6OkEnv id c6OkOptions).1.mpr h
    rw [ho] at he
    exact Except.noConfusion he

/-! ## Claims C1 and C8 (collection phase) -/

theorem mem_collectFolderEntries_type {store : ExportStore} {srcF srcN : List String}
    {e : QueueEntry} (h : e ∈ collectFolderEntries store srcF srcN) :
    e.type = ItemType.folder ∨ e.type = ItemType.note := by
  rw [collectFolderEntries, List.mem_flatMap] at h
  obtain ⟨fid, _, he⟩ := h
  rcases List.mem_append.mp he with h1 | h1
  · by_cases hs : srcN.isEmpty
    · simp only [hs, if_pos] at h1
      rw [List.mem_singleton.mp h1]
      exact Or.inl rfl
    · simp [hs] at h1
  · obtain ⟨nid, _, rfl⟩ := List.mem_map.mp h1
    exact Or.inr rfl

/-- Claim C1 (counterexample): in a store with one exported note carrying
two label-assignments that reference the same label id `"t"`, the collected
queue contains two identical Label entries for `"t"` — label ids are not
deduplicated. -/
theorem c1_label_dedup_counterexample :
    ((collectQueue c1Store [] []).filter
        (fun e => e == QueueEntry.mk ItemType.tag (ItemOrId.id "t"))).length = 2 := by
  decide

/-- Claim C1 (amended): after enumerating label-assignments, one Label
entry is enqueued per *recorded label id occurrence* — i.e. one per
label-assignment whose owning document was exported — so a label referenced
by several exported label-assignments is enqueued several times; the
recorded label ids are not deduplicated (only attachment ids are). -/
theorem c1_label_entries (store : ExportStore) (srcF srcN : List String) :
    (collectQueue store srcF srcN).filter (fun e => e.type == ItemType.tag)
      = (exportedNoteTags store
          (exportedNoteIds store (fullSourceFolderIds store srcF) srcN)).map
        (fun nt => QueueEntry.mk ItemType.tag (ItemOrId.id nt.tag_id)) := by
  rw [collectQueue]
  simp only [List.filter_append]
  have hA : (collectFolderEntries store (fullSourceFolderIds store srcF) srcN).filter
      (fun e => e.type == ItemType.tag) = [] := by
    rw [List.filter_eq_nil_iff]
    intro e he
    rcases mem_collectFolderEntries_type he with h | h <;> simp [h]
  have hB : ((uniqueFirst (collectedResourceIds store (fullSourceFolderIds store srcF)
        srcN)).map (fun rid => QueueEntry.mk ItemType.resource (ItemOrId.id rid))).filter
      (fun e => e.type == ItemType.tag) = [] := by
    rw [List.filter_eq_nil_iff]
    intro e he
    obtain ⟨rid, _, rfl⟩ := List.mem_map.mp he
    simp
  have hC : ((exportedNoteTags store (exportedNoteIds store (fullSourceFolderIds store srcF)
        srcN)).map (fun nt => QueueEntry.mk ItemType.noteTag (ItemOrId.id nt.id))).filter
      (fun e => e.type == ItemType.tag) = [] := by
    rw [List.filter_eq_nil_iff]
    intro e he
    obtain ⟨nt, _, rfl⟩ := List.mem_map.mp he
    simp
  rw [hA, hB, hC]
  simp only [List.nil_append, List.map_map]
  rw [List.filter_eq_self.mpr]
  · rfl
  · intro e he
    obtain ⟨nt, _, rfl⟩ := List.mem_map.mp he
    simp [Function.comp]

theorem count_uniqueFirstAux (seen l : List String) (a : String) :
    (uniqueFirstAux seen l).count a = if a ∈ l ∧ a ∉ seen then 1 else 0 := by
  induction l generalizing seen with
  | nil => simp [uniqueFirstAux]
  | cons b l ih =>
    rw [uniqueFirstAux]
    by_cases hb : seen.contains b
    · rw [if_pos hb, ih]
      have hbseen : b ∈ seen := by simpa using hb
      by_cases hab : a = b
      · subst hab
        simp [hbseen]
      · simp [List.mem_cons, hab]
    · rw [if_neg hb, List.count_cons, ih]
      have hbseen : b ∉ seen := by simpa using hb
      by_cases hab : a = b
      · subst hab
        simp [hbseen, List.mem_cons]
      · have hba : ¬ (b = a) := fun h => hab h.symm
        simp [List.mem_cons, hab, hba]

theorem count_uniqueFirst (l : List String) (a : String) :
    (uniqueFirst l).count a = if a ∈ l then 1 else 0 := by
  rw [uniqueFirst, count_uniqueFirstAux]
  simp

theorem count_entry_eq_zero_of_type {l : List QueueEntry} {x : QueueEntry}
    (h : ∀ e ∈ l, e.type ≠ x.type) : l.count x = 0 :=
  List.count_eq_zero.mpr (fun hx => h x hx rfl)

theorem sum_map_ite_eq_count (l : List String) (f : String) :
    (l.map fun a => if a = f then 1 else 0).sum = l.count f := by
  induction l with
  | nil => simp
  | cons x xs ih =>
    by_cases h : x = f <;> simp [List.count_cons, h, ih, Nat.add_comm]

/-- Claim C8: exporting with empty container and document filters enqueues
every container exactly once and every document exactly once, and an
attachment referenced by at least one exported document is enqueued as
exactly one Attachment entry (the collected attachment ids are deduplicated
after all documents are visited).  The store hypotheses say ids are unique:
the folder enumeration and the per-folder note ids contain no duplicates,
and loading a note by id yields an item with that id. -/
theorem c8_collection_unique (store : ExportStore)
    (hF : store.allFolderIds.Nodup)
    (hN : (store.allFolderIds.flatMap store.folderNoteIds).Nodup)
    (hId : ∀ n, (store.noteLoad n).id = n) :
    (∀ f ∈ store.allFolderIds,
      (collectQueue store [] []).count (QueueEntry.mk ItemType.folder (ItemOrId.id f)) = 1)
    ∧ (∀ n ∈ store.allFolderIds.flatMap store.folderNoteIds,
      (collectQueue store [] []).count
        (QueueEntry.mk ItemType.note (ItemOrId.item (store.noteLoad n))) = 1)
    ∧ (∀ r ∈ collectedResourceIds store [] [],
      (collectQueue store [] []).count
        (QueueEntry.mk ItemType.resource (ItemOrId.id r)) = 1) := by
  have hsrcF : fullSourceFolderIds store [] = [] := by simp [fullSourceFolderIds]
  have hkeptF : store.allFolderIds.filter (folderKept []) = store.allFolderIds :=
    List.filter_eq_self.mpr (fun a _ => by simp [folderKept])
  have hkeptN : ∀ fid, keptNoteIds store [] fid = store.folderNoteIds fid := fun fid =>
    List.filter_eq_self.mpr (fun a _ => by simp [noteKept])
  have hA' : collectFolderEntries store [] []
      = store.allFolderIds.flatMap fun fid =>
          QueueEntry.mk ItemType.folder (ItemOrId.id fid)
            :: (store.folderNoteIds fid).map
                (fun nid => QueueEntry.mk ItemType.note (ItemOrId.item (store.noteLoad nid))) := by
    rw [collectFolderEntries, hkeptF]
    congr 1
    funext fid
    simp [hkeptN fid]
  have hq : collectQueue store [] []
      = (store.allFolderIds.flatMap fun fid =>
          QueueEntry.mk ItemType.folder (ItemOrId.id fid)
            :: (store.folderNoteIds fid).map
                (fun nid => QueueEntry.mk ItemType.note (ItemOrId.item (store.noteLoad nid))))
        ++ (uniqueFirst (collectedResourceIds store [] [])).map
              (fun rid => QueueEntry.mk ItemType.resource (ItemOrId.id rid))
        ++ (exportedNoteTags store (exportedNoteIds store [] [])).map
              (fun nt => QueueEntry.mk ItemType.noteTag (ItemOrId.id nt.id))
        ++ ((exportedNoteTags store (exportedNoteIds store [] [])).map (fun nt => nt.tag_id)).map
              (fun tid => QueueEntry.mk ItemType.tag (ItemOrId.id tid)) := by
    rw [collectQueue, hsrcF, hA']
  refine ⟨?_, ?_, ?_⟩
  · intro f hf
    rw [hq]
    simp only [List.count_append]
    have hB : ((uniqueFirst (collectedResourceIds store [] [])).map
        (fun rid => QueueEntry.mk ItemType.resource (ItemOrId.id rid))).count
          (QueueEntry.mk ItemType.folder (ItemOrId.id f)) = 0 := by
      apply count_entry_eq_zero_of_type
      intro e he
      obtain ⟨rid, _, rfl⟩ := List.mem_map.mp he
      simp
    have hC : ((exportedNoteTags store (exportedNoteIds store [] [])).map
        (fun nt => QueueEntry.mk ItemType.noteTag (ItemOrId.id nt.id))).count
          (QueueEntry.mk ItemType.folder (ItemOrId.id f)) = 0 := by
      apply count_entry_eq_zero_of_type
      intro e he
      obtain ⟨nt, _, rfl⟩ := List.mem_map.mp he
      simp
    have hD : (((exportedNoteTags store (exportedNoteIds store [] [])).map
        (fun nt => nt.tag_id)).map
          (fun tid => QueueEntry.mk ItemType.tag (ItemOrId.id tid))).count
          (QueueEntry.mk ItemType.folder (ItemOrId.id f)) = 0 := by
      apply count_entry_eq_zero_of_type
      intro e he
      obtain ⟨tid, _, rfl⟩ := List.mem_map.mp he
      simp
    rw [hB, hC, hD]
    simp only [Nat.add_zero]
    rw [List.count_flatMap]
    have hmap : store.allFolderIds.map
        (List.count (QueueEntry.mk ItemType.folder (ItemOrId.id f)) ∘ fun fid =>
          QueueEntry.mk ItemType.folder (ItemOrId.id fid)
            :: (store.folderNoteIds fid).map
                (fun nid => QueueEntry.mk ItemType.note (ItemOrId.item (store.noteLoad nid))))
        = store.allFolderIds.map (fun fid => if fid = f then 1 else 0) := by
      apply List.map_congr_left
      intro fid _
      simp only [Function.comp_apply]
      rw [List.count_cons]
      have hz : ((store.folderNoteIds fid).map
          (fun nid => QueueEntry.mk ItemType.note (ItemOrId.item (store.noteLoad nid)))).count
            (QueueEntry.mk ItemType.folder (ItemOrId.id f)) = 0 := by
        apply count_entry_eq_zero_of_type
        intro e he
        obtain ⟨nid, _, rfl⟩ := List.mem_map.mp he
        simp
      rw [hz]
      by_cases hfid : fid = f <;> simp [hfid]
    rw [hmap, sum_map_ite_eq_count]
    exact List.count_eq_one_of_mem hF hf
  · intro n hn
    have hinj : Function.Injective
        (fun nid => QueueEntry.mk ItemType.note (ItemOrId.item (store.noteLoad nid))) := by
      intro a b h
      simp only [QueueEntry.mk.injEq, ItemOrId.item.injEq, true_and] at h
      have h2 := congrArg Item.id h
      rwa [hId, hId] at h2
    rw [hq]
    simp only [List.count_append]
    have hB : ((uniqueFirst (collectedResourceIds store [] [])).map
        (fun rid => QueueEntry.mk ItemType.resource (ItemOrId.id rid))).count
          (QueueEntry.mk ItemType.note (ItemOrId.item (store.noteLoad n))) = 0 := by
      apply count_entry_eq_zero_of_type
      intro e he
      obtain ⟨rid, _, rfl⟩ := List.mem_map.mp he
      simp
    have hC : ((exportedNoteTags store (exportedNoteIds store [] [])).map
        (fun nt => QueueEntry.mk ItemType.noteTag (ItemOrId.id nt.id))).count
          (QueueEntry.mk ItemType.note (ItemOrId.item (store.noteLoad n))) = 0 := by
      apply count_entry_eq_zero_of_type
      intro e he
      obtain ⟨nt, _, rfl⟩ := List.mem_map.mp he
      simp
    have hD : (((exportedNoteTags store (exportedNoteIds store [] [])).map
        (fun nt => nt.tag_id)).map
          (fun tid => QueueEntry.mk ItemType.tag (ItemOrId.id tid))).count
          (QueueEntry.mk ItemType.note (ItemOrId.item (store.noteLoad n))) = 0 := by
      apply count_entry_eq_zero_of_type
      intro e he
      obtain ⟨tid, _, rfl⟩ := List.mem_map.mp he
      simp
    rw [hB, hC, hD]
    simp only [Nat.add_zero]
    rw [List.count_flatMap]
    have hmap : store.allFolderIds.map
        (List.count (QueueEntry.mk ItemType.note (ItemOrId.item (store.noteLoad n))) ∘ fun fid =>
          QueueEntry.mk ItemType.folder (ItemOrId.id fid)
            :: (store.folderNoteIds fid).map
                (fun nid => QueueEntry.mk ItemType.note (ItemOrId.item (store.noteLoad nid))))
        = store.allFolderIds.map (fun fid => List.count n (store.folderNoteIds fid)) := by
      apply List.map_congr_left
      intro fid _
      simp only [Function.comp_apply]
      rw [List.count_cons]
      rw [List.count_map_of_injective _ _ hinj n]
      simp
    rw [hmap]
    rw [show (fun fid => List.count n (store.folderNoteIds fid))
        = (List.count n ∘ store.folderNoteIds) from rfl]
    rw [← List.count_flatMap]
    exact List.count_eq_one_of_mem hN hn
  · intro r hr
    have hinj : Function.Injective
        (fun rid => QueueEntry.mk ItemType.resource (ItemOrId.id rid)) := by
      intro a b h
      simpa using h
    rw [hq]
    simp only [List.count_append]
    have hA : (store.allFolderIds.flatMap fun fid =>
        QueueEntry.mk ItemType.folder (ItemOrId.id fid)
          :: (store.folderNoteIds fid).map
              (fun nid => QueueEntry.mk ItemType.note (ItemOrId.item (store.noteLoad nid)))).count
          (QueueEntry.mk ItemType.resource (ItemOrId.id r)) = 0 := by
      apply count_entry_eq_zero_of_type
      intro e he
      rw [List.mem_flatMap] at he
      obtain ⟨fid, _, he2⟩ := he
      rcases List.mem_cons.mp he2 with h1 | h1
      · rw [h1]
        simp
      · obtain ⟨nid, _, rfl⟩ := List.mem_map.mp h1
        simp
    have hC : ((exportedNoteTags store (exportedNoteIds store [] [])).map
        (fun nt => QueueEntry.mk ItemType.noteTag (ItemOrId.id nt.id))).count
          (QueueEntry.mk ItemType.resource (ItemOrId.id r)) = 0 := by
      apply count_entry_eq_zero_of_type
      intro e he
      obtain ⟨nt, _, rfl⟩ := List.mem_map.mp he
      simp
    have hD : (((exportedNoteTags store (exportedNoteIds store [] [])).map
        (fun nt => nt.tag_id)).map
          (fun tid => QueueEntry.mk ItemType.tag (ItemOrId.id tid))).count
          (QueueEntry.mk ItemType.resource (ItemOrId.id r)) = 0 := by
      apply count_entry_eq_zero_of_type
      intro e he
      obtain ⟨tid, _, rfl⟩ := List.mem_map.mp he
      simp
    rw [hA, hC, hD]
    simp only [Nat.add_zero, Nat.zero_add]
    rw [List.count_map_of_injective _ _ hinj r]
    rw [count_uniqueFirst]
    simp [hr]

/-- Witness for claim C8: in the concrete store `c8Store`, the folder
`"f1"`, the note `"n1"` and the resource `"r1"` (referenced by two notes)
are each enqueued exactly once. -/
theorem c8_collection_unique_witness :
    (collectQueue c8Store [] []).count
      (QueueEntry.mk ItemType.folder (ItemOrId.id "f1")) = 1
    ∧ (collectQueue c8Store [] []).count
      (QueueEntry.mk ItemType.note (ItemOrId.item (c8Store.noteLoad "n1"))) = 1
    ∧ (collectQueue c8Store [] []).count
      (QueueEntry.mk ItemType.resource (ItemOrId.id "r1")) = 1 := by
  have h := c8_collection_unique c8Store (by decide) (by decide) (fun n => rfl)
  exact ⟨h.1 "f1" (by decide), h.2.1 "n1" (by decide), h.2.2 "r1" (by decide)⟩

/-! ## Helper lemmas for the dispatch phase -/

theorem mem_processLoaded {store : ExportStore} {exp : ExporterModel} {t : ItemType}
    {it : Item} {ev : Event} (h : ev ∈ processLoaded store exp t it) :
    (∃ m, ev = Event.warning m) ∨ ev = Event.updateContext
    ∨ (∃ p, ev = Event.processResource it p) ∨ ev = Event.processItem t it := by
  rw [processLoaded] at h
  by_cases h1 : (it.encryption_applied || it.encryption_blob_encrypted) = true
  · rw [if_pos h1] at h
    rw [List.mem_singleton.mp h]
    exact Or.inl ⟨_, rfl⟩
  · rw [if_neg h1] at h
    by_cases h2 : t = ItemType.resource
    · rw [if_pos h2] at h
      rcases List.mem_cons.mp h with h3 | h3
      · exact Or.inr (Or.inl h3)
      rcases List.mem_cons.mp h3 with h4 | h4
      · exact Or.inr (Or.inr (Or.inl ⟨_, h4⟩))
      cases hr : exp.processResourceError it (store.resourceFullPath it) with
      | some msg =>
        rw [hr] at h4
        rw [List.mem_singleton.mp h4]
        exact Or.inl ⟨_, rfl⟩
      | none =>
        rw [hr] at h4
        rcases List.mem_cons.mp h4 with h5 | h5
        · exact Or.inr (Or.inr (Or.inr h5))
        cases hi : exp.processItemError t it with
        | some msg =>
          rw [hi] at h5
          rw [List.mem_singleton.mp h5]
          exact Or.inl ⟨_, rfl⟩
        | none =>
          rw [hi] at h5
          cases h5
    · rw [if_neg h2] at h
      rcases List.mem_cons.mp h with h3 | h3
      · exact Or.inr (Or.inr (Or.inr h3))
      cases hi : exp.processItemError t it with
      | some msg =>
        rw [hi] at h3
        rw [List.mem_singleton.mp h3]
        exact Or.inl ⟨_, rfl⟩
      | none =>
        rw [hi] at h3
        cases h3

theorem processResource_not_mem_processLoaded {store : ExportStore} {exp : ExporterModel}
    {t : ItemType} {it₀ it : Item} {p : String} (hne : t ≠ ItemType.resource) :
    Event.processResource it p ∉ processLoaded store exp t it₀ := by
  intro h
  rw [processLoaded] at h
  by_cases h1 : (it₀.encryption_applied || it₀.encryption_blob_encrypted) = true
  · rw [if_pos h1] at h
    exact Event.noConfusion (List.mem_singleton.mp h)
  · rw [if_neg h1, if_neg hne] at h
    rcases List.mem_cons.mp h with h3 | h3
    · exact Event.noConfusion h3
    cases hi : exp.processItemError t it₀ with
    | some msg =>
      rw [hi] at h3
      exact Event.noConfusion (List.mem_singleton.mp h3)
    | none =>
      rw [hi] at h3
      cases h3

theorem mem_processEntry {store : ExportStore} {exp : ExporterModel} {e : QueueEntry}
    {ev : Event} (h : ev ∈ processEntry store exp e) :
    (∃ m, ev = Event.warning m) ∨ ev = Event.updateContext
    ∨ (∃ it p, ev = Event.processResource it p)
    ∨ (∃ it, ev = Event.processItem e.type it) := by
  rcases e with ⟨ty, io⟩
  cases io with
  | item it =>
    have h' : ev ∈ processLoaded store exp ty it := h
    rcases mem_processLoaded h' with ⟨m, hm⟩ | hm | ⟨p, hm⟩ | hm
    · exact Or.inl ⟨m, hm⟩
    · exact Or.inr (Or.inl hm)
    · exact Or.inr (Or.inr (Or.inl ⟨it, p, hm⟩))
    · exact Or.inr (Or.inr (Or.inr ⟨it, hm⟩))
  | id i =>
    have h' : ev ∈ (match store.itemLoad ty i with
        | none =>
          if ty = ItemType.resource then [Event.warning (resourceMissingWarning i)]
          else [Event.warning (itemMissingWarning ty i)]
        | some it => processLoaded store exp ty it) := h
    cases hl : store.itemLoad ty i with
    | none =>
      rw [hl] at h'
      by_cases h2 : ty = ItemType.resource
      · rw [if_pos h2] at h'
        rw [List.mem_singleton.mp h']
        exact Or.inl ⟨_, rfl⟩
      · rw [if_neg h2] at h'
        rw [List.mem_singleton.mp h']
        exact Or.inl ⟨_, rfl⟩
    | some it =>
      rw [hl] at h'
      rcases mem_processLoaded h' with ⟨m, hm⟩ | hm | ⟨p, hm⟩ | hm
      · exact Or.inl ⟨m, hm⟩
      · exact Or.inr (Or.inl hm)
      · exact Or.inr (Or.inr (Or.inl ⟨it, p, hm⟩))
      · exact Or.inr (Or.inr (Or.inr ⟨it, hm⟩))

theorem processResource_not_mem_processEntry {store : ExportStore} {exp : ExporterModel}
    {e : QueueEntry} {it : Item} {p : String} (hne : e.type ≠ ItemType.resource) :
    Event.processResource it p ∉ processEntry store exp e := by
  rcases e with ⟨ty, io⟩
  intro h
  have hne' : ty ≠ ItemType.resource := hne
  cases io with
  | item it₀ =>
    have h' : Event.processResource it p ∈ processLoaded store exp ty it₀ := h
    exact processResource_not_mem_processLoaded hne' h'
  | id i =>
    have h' : Event.processResource it p ∈ (match store.itemLoad ty i with
        | none =>
          if ty = ItemType.resource then [Event.warning (resourceMissingWarning i)]
          else [Event.warning (itemMissingWarning ty i)]
        | some it₀ => processLoaded store exp ty it₀) := h
    cases hl : store.itemLoad ty i with
    | none =>
      rw [hl, if_neg hne'] at h'
      exact Event.noConfusion (List.mem_singleton.mp h')
    | some it₀ =>
      rw [hl] at h'
      exact processResource_not_mem_processLoaded hne' h'

theorem processItem_type_of_mem_entriesEvents {store : ExportStore} {exp : ExporterModel}
    {queue : List QueueEntry} {t t' : ItemType} {it : Item}
    (h : Event.processItem t' it ∈ entriesEvents store exp queue t) : t' = t := by
  rw [entriesEvents, List.mem_flatMap] at h
  obtain ⟨e, he, hev⟩ := h
  have h1 : e.type = t := by
    have h2 := (List.mem_filter.mp he).2
    simpa using h2
  rcases mem_processEntry hev with ⟨m, hm⟩ | hm | ⟨it₀, p, hm⟩ | ⟨it₀, hm⟩
  · exact Event.noConfusion hm
  · exact Event.noConfusion hm
  · exact Event.noConfusion hm
  · injection hm with h2 h3
    exact h2.trans h1

theorem prepare_not_mem_entriesEvents {store : ExportStore} {exp : ExporterModel}
    {queue : List QueueEntry} {t t' : ItemType} {q' : List QueueEntry} :
    Event.prepare t' q' ∉ entriesEvents store exp queue t := by
  intro h
  rw [entriesEvents, List.mem_flatMap] at h
  obtain ⟨e, _, hev⟩ := h
  rcases mem_processEntry hev with ⟨m, hm⟩ | hm | ⟨it, p, hm⟩ | ⟨it, hm⟩ <;>
    exact Event.noConfusion hm

theorem close_not_mem_entriesEvents {store : ExportStore} {exp : ExporterModel}
    {queue : List QueueEntry} {t : ItemType} :
    Event.close ∉ entriesEvents store exp queue t := by
  intro h
  rw [entriesEvents, List.mem_flatMap] at h
  obtain ⟨e, _, hev⟩ := h
  rcases mem_processEntry hev with ⟨m, hm⟩ | hm | ⟨it, p, hm⟩ | ⟨it, hm⟩ <;>
    exact Event.noConfusion hm

theorem processResource_not_mem_entriesEvents {store : ExportStore} {exp : ExporterModel}
    {queue : List QueueEntry} {t : ItemType} {it : Item} {p : String}
    (hne : t ≠ ItemType.resource) :
    Event.processResource it p ∉ entriesEvents store exp queue t := by
  intro h
  rw [entriesEvents, List.mem_flatMap] at h
  obtain ⟨e, he, hev⟩ := h
  have h1 : e.type = t := by
    have h2 := (List.mem_filter.mp he).2
    simpa using h2
  exact processResource_not_mem_processEntry (h1 ▸ hne) hev

theorem processItem_not_mem_typeEvents {store : ExportStore} {exp : ExporterModel}
    {queue : List QueueEntry} {t t' : ItemType} {it : Item} (hne : t' ≠ t) :
    Event.processItem t' it ∉ typeEvents store exp queue t := by
  intro h
  rcases List.mem_cons.mp h with h1 | h1
  · exact Event.noConfusion h1
  · exact hne (processItem_type_of_mem_entriesEvents h1)

theorem prepare_mem_typeEvents {store : ExportStore} {exp : ExporterModel}
    {queue : List QueueEntry} {t t' : ItemType} {q' : List QueueEntry}
    (h : Event.prepare t' q' ∈ typeEvents store exp queue t) : t' = t ∧ q' = queue := by
  rcases List.mem_cons.mp h with h1 | h1
  · injection h1 with h2 h3
    exact ⟨h2, h3⟩
  · exact absurd h1 prepare_not_mem_entriesEvents

theorem close_not_mem_typeEvents {store : ExportStore} {exp : ExporterModel}
    {queue : List QueueEntry} {t : ItemType} :
    Event.close ∉ typeEvents store exp queue t := by
  intro h
  rcases List.mem_cons.mp h with h1 | h1
  · exact Event.noConfusion h1
  · exact close_not_mem_entriesEvents h1

theorem processResource_not_mem_typeEvents {store : ExportStore} {exp : ExporterModel}
    {queue : List QueueEntry} {t : ItemType} {it : Item} {p : String}
    (hne : t ≠ ItemType.resource) :
    Event.processResource it p ∉ typeEvents store exp queue t := by
  intro h
  rcases List.mem_cons.mp h with h1 | h1
  · exact Event.noConfusion h1
  · exact processResource_not_mem_entriesEvents hne h1

theorem processItem_not_mem_typeEvents_flatMap {store : ExportStore} {exp : ExporterModel}
    {queue : List QueueEntry} {t' : ItemType} {it : Item} {ts : List ItemType}
    (hts : t' ∉ ts) :
    Event.processItem t' it ∉ ts.flatMap (typeEvents store exp queue) := by
  intro h
  rw [List.mem_flatMap] at h
  obtain ⟨t, ht, hev⟩ := h
  refine processItem_not_mem_typeEvents (fun heq => hts ?_) hev
  rw [heq]
  exact ht

theorem prepare_not_mem_typeEvents_flatMap {store : ExportStore} {exp : ExporterModel}
    {queue : List QueueEntry} {t' : ItemType} {q' : List QueueEntry} {ts : List ItemType}
    (hts : t' ∉ ts) :
    Event.prepare t' q' ∉ ts.flatMap (typeEvents store exp queue) := by
  intro h
  rw [List.mem_flatMap] at h
  obtain ⟨t, ht, hev⟩ := h
  obtain ⟨h1, -⟩ := prepare_mem_typeEvents hev
  subst h1
  exact hts ht

theorem close_not_mem_typeEvents_flatMap {store : ExportStore} {exp : ExporterModel}
    {queue : List QueueEntry} {ts : List ItemType} :
    Event.close ∉ ts.flatMap (typeEvents store exp queue) := by
  intro h
  rw [List.mem_flatMap] at h
  obtain ⟨t, _, hev⟩ := h
  exact close_not_mem_typeEvents hev

theorem processResource_not_mem_typeEvents_flatMap {store : ExportStore} {exp : ExporterModel}
    {queue : List QueueEntry} {it : Item} {p : String} {ts : List ItemType}
    (hts : ItemType.resource ∉ ts) :
    Event.processResource it p ∉ ts.flatMap (typeEvents store exp queue) := by
  intro h
  rw [List.mem_flatMap] at h
  obtain ⟨t, ht, hev⟩ := h
  have hne : t ≠ ItemType.resource := fun heq => hts (heq ▸ ht)
  exact processResource_not_mem_typeEvents hne hev

theorem dispatch_split (store : ExportStore) (exp : ExporterModel) (queue : List QueueEntry)
    (pre suf : List ItemType) (h : typeOrder = pre ++ suf) :
    dispatchEvents store exp queue
      = pre.flatMap (typeEvents store exp queue)
        ++ (suf.flatMap (typeEvents store exp queue) ++ [Event.close]) := by
  rw [dispatchEvents, h, List.flatMap_append, List.append_assoc]

theorem dispatch_split_mid (store : ExportStore) (exp : ExporterModel)
    (queue : List QueueEntry) (pre suf : List ItemType) (t : ItemType)
    (h : typeOrder = pre ++ t :: suf) :
    dispatchEvents store exp queue
      = (pre.flatMap (typeEvents store exp queue) ++ [Event.prepare t queue])
        ++ (entriesEvents store exp queue t
            ++ (suf.flatMap (typeEvents store exp queue) ++ [Event.close])) := by
  rw [dispatchEvents, h, List.flatMap_append, List.flatMap_cons, typeEvents]
  simp [List.append_assoc]

theorem append_index_lt {l l₁ l₂ : List Event} (heq : l = l₁ ++ l₂) {P Q : Event → Prop}
    (hP : ∀ e ∈ l₂, ¬ P e) (hQ : ∀ e ∈ l₁, ¬ Q e)
    {i j : Nat} (hi : i < l.length) (hj : j < l.length)
    (hPi : P (l.get ⟨i, hi⟩)) (hQj : Q (l.get ⟨j, hj⟩)) : i < j := by
  subst heq
  simp only [List.get_eq_getElem] at hPi hQj
  have hi1 : i < l₁.length := by
    by_contra hc
    push_neg at hc
    rw [List.getElem_append_right hc] at hPi
    exact hP _ (List.getElem_mem _) hPi
  have hj1 : l₁.length ≤ j := by
    by_contra hc
    push_neg at hc
    rw [List.getElem_append_left hc] at hQj
    exact hQ _ (List.getElem_mem _) hQj
  omega

theorem flatMap_toList_eq_filterMap {α β : Type} (f : α → Option β) (l : List α) :
    (l.flatMap fun a => (f a).toList) = l.filterMap f := by
  induction l with
  | nil => rfl
  | cons x xs ih =>
    rw [List.flatMap_cons, ih]
    cases hx : f x <;> simp [List.filterMap_cons, hx]

theorem filterMap_flatMap {α β γ : Type} (l : List α) (g : α → List β) (f : β → Option γ) :
    (l.flatMap g).filterMap f = l.flatMap fun a => (g a).filterMap f := by
  induction l with
  | nil => rfl
  | cons x xs ih =>
    rw [List.flatMap_cons, List.flatMap_cons, List.filterMap_append, ih]

theorem flatMap_congr_mem {α β : Type} {l : List α} {f g : α → List β}
    (h : ∀ a ∈ l, f a = g a) : l.flatMap f = l.flatMap g := by
  induction l with
  | nil => rfl
  | cons x xs ih =>
    rw [List.flatMap_cons, List.flatMap_cons, h x (List.mem_cons_self x xs),
      ih (fun a ha => h a (List.mem_cons_of_mem x ha))]

theorem filterMap_procItemOf_processLoaded (store : ExportStore) (exp : ExporterModel)
    (ty : ItemType) (it : Item) :
    (processLoaded store exp ty it).filterMap (procItemOf ty)
      = (if it.encryption_applied || it.encryption_blob_encrypted then (none : Option Item)
         else if ty = ItemType.resource then
           match exp.processResourceError it (store.resourceFullPath it) with
           | some _ => none
           | none => some it
         else some it).toList := by
  rw [processLoaded]
  by_cases h1 : (it.encryption_applied || it.encryption_blob_encrypted) = true
  · rw [if_pos h1, if_pos h1]
    simp [procItemOf]
  · rw [if_neg h1, if_neg h1]
    by_cases h2 : ty = ItemType.resource
    · rw [if_pos h2, if_pos h2]
      cases hr : exp.processResourceError it (store.resourceFullPath it) with
      | some msg => simp [procItemOf, hr]
      | none =>
        cases hi : exp.processItemError ty it with
        | some msg => simp [procItemOf, hr, hi]
        | none => simp [procItemOf, hr, hi]
    · rw [if_neg h2, if_neg h2]
      cases hi : exp.processItemError ty it with
      | some msg => simp [procItemOf]
      | none => simp [procItemOf]

theorem filterMap_procItemOf_processEntry (store : ExportStore) (exp : ExporterModel)
    (e : QueueEntry) :
    (processEntry store exp e).filterMap (procItemOf e.type)
      = (entryProcessedItem store exp e).toList := by
  rcases e with ⟨ty, io⟩
  cases io with
  | item it =>
    have h1 : processEntry store exp ⟨ty, ItemOrId.item it⟩
        = processLoaded store exp ty it := rfl
    have h2 : entryProcessedItem store exp ⟨ty, ItemOrId.item it⟩
        = (if it.encryption_applied || it.encryption_blob_encrypted then (none : Option Item)
           else if ty = ItemType.resource then
             match exp.processResourceError it (store.resourceFullPath it) with
             | some _ => none
             | none => some it
           else some it) := rfl
    rw [h1, h2, filterMap_procItemOf_processLoaded]
  | id i =>
    cases hl : store.itemLoad ty i with
    | none =>
      have h1 : processEntry store exp ⟨ty, ItemOrId.id i⟩
          = (if ty = ItemType.resource then [Event.warning (resourceMissingWarning i)]
             else [Event.warning (itemMissingWarning ty i)]) := by
        simp [processEntry, hl]
      have h2 : entryProcessedItem store exp ⟨ty, ItemOrId.id i⟩ = none := by
        simp [entryProcessedItem, resolveEntryItem, hl]
      rw [h1, h2]
      by_cases h3 : ty = ItemType.resource <;> simp [h3, procItemOf]
    | some it =>
      have h1 : processEntry store exp ⟨ty, ItemOrId.id i⟩
          = processLoaded store exp ty it := by
        simp [processEntry, hl]
      have h2 : entryProcessedItem store exp ⟨ty, ItemOrId.id i⟩
          = (if it.encryption_applied || it.encryption_blob_encrypted then (none : Option Item)
             else if ty = ItemType.resource then
               match exp.processResourceError it (store.resourceFullPath it) with
               | some _ => none
               | none => some it
             else some it) := by
        simp [entryProcessedItem, resolveEntryItem, hl]
      rw [h1, h2, filterMap_procItemOf_processLoaded]

theorem filterMap_procItemOf_typeEvents_ne (store : ExportStore) (exp : ExporterModel)
    (queue : List QueueEntry) (tseg t : ItemType) (hne : tseg ≠ t) :
    (typeEvents store exp queue tseg).filterMap (procItemOf t) = [] := by
  rw [List.filterMap_eq_nil_iff]
  intro ev hev
  rcases List.mem_cons.mp hev with h1 | h1
  · rw [h1]
    rfl
  · cases ev with
    | processItem t'' it =>
      have h2 := processItem_type_of_mem_entriesEvents h1
      subst h2
      simp [procItemOf, hne]
    | prepare a b => rfl
    | warning m => rfl
    | updateContext => rfl
    | processResource a b => rfl
    | close => rfl

theorem filterMap_procItemOf_typeEvents_eq (store : ExportStore) (exp : ExporterModel)
    (queue : List QueueEntry) (t : ItemType) :
    (typeEvents store exp queue t).filterMap (procItemOf t)
      = (queue.filter (fun e => e.type == t)).filterMap (entryProcessedItem store exp) := by
  rw [typeEvents, List.filterMap_cons]
  have hprep : procItemOf t (Event.prepare t queue) = none := rfl
  rw [hprep]
  rw [entriesEvents, filterMap_flatMap]
  rw [← flatMap_toList_eq_filterMap (entryProcessedItem store exp)]
  apply flatMap_congr_mem
  intro e he
  have ht : e.type = t := by
    have h2 := (List.mem_filter.mp he).2
    simpa using h2
  rw [← ht]
  exact filterMap_procItemOf_processEntry store exp e

theorem dispatch_filterMap_procItemOf (store : ExportStore) (exp : ExporterModel)
    (queue : List QueueEntry) (t : ItemType) :
    (dispatchEvents store exp queue).filterMap (procItemOf t)
      = (queue.filter (fun e => e.type == t)).filterMap (entryProcessedItem store exp) := by
  rw [dispatchEvents, List.filterMap_append]
  have hclose : ([Event.close] : List Event).filterMap (procItemOf t) = [] := rfl
  rw [hclose, List.append_nil]
  simp only [typeOrder, List.flatMap_cons, List.flatMap_nil, List.filterMap_append,
    List.append_nil]
  cases t with
  | folder =>
    rw [filterMap_procItemOf_typeEvents_eq,
      filterMap_procItemOf_typeEvents_ne store exp queue ItemType.resource _ (by decide),
      filterMap_procItemOf_typeEvents_ne store exp queue ItemType.note _ (by decide),
      filterMap_procItemOf_typeEvents_ne store exp queue ItemType.tag _ (by decide),
      filterMap_procItemOf_typeEvents_ne store exp queue ItemType.noteTag _ (by decide)]
    simp
  | resource =>
    rw [filterMap_procItemOf_typeEvents_eq,
      filterMap_procItemOf_typeEvents_ne store exp queue ItemType.folder _ (by decide),
      filterMap_procItemOf_typeEvents_ne store exp queue ItemType.note _ (by decide),
      filterMap_procItemOf_typeEvents_ne store exp queue ItemType.tag _ (by decide),
      filterMap_procItemOf_typeEvents_ne store exp queue ItemType.noteTag _ (by decide)]
    simp
  | note =>
    rw [filterMap_procItemOf_typeEvents_eq,
      filterMap_procItemOf_typeEvents_ne store exp queue ItemType.folder _ (by decide),
      filterMap_procItemOf_typeEvents_ne store exp queue ItemType.resource _ (by decide),
      filterMap_procItemOf_typeEvents_ne store exp queue ItemType.tag _ (by decide),
      filterMap_procItemOf_typeEvents_ne store exp queue ItemType.noteTag _ (by decide)]
    simp
  | tag =>
    rw [filterMap_procItemOf_typeEvents_eq,
      filterMap_procItemOf_typeEvents_ne store exp queue ItemType.folder _ (by decide),
      filterMap_procItemOf_typeEvents_ne store exp queue ItemType.resource _ (by decide),
      filterMap_procItemOf_typeEvents_ne store exp queue ItemType.note _ (by decide),
      filterMap_procItemOf_typeEvents_ne store exp queue ItemType.noteTag _ (by decide)]
    simp
  | noteTag =>
    rw [filterMap_procItemOf_typeEvents_eq,
      filterMap_procItemOf_typeEvents_ne store exp queue ItemType.folder _ (by decide),
      filterMap_procItemOf_typeEvents_ne store exp queue ItemType.resource _ (by decide),
      filterMap_procItemOf_typeEvents_ne store exp queue ItemType.note _ (by decide),
      filterMap_procItemOf_typeEvents_ne store exp queue ItemType.tag _ (by decide)]
    simp

theorem count_prepare_typeEvents (store : ExportStore) (exp : ExporterModel)
    (queue : List QueueEntry) (tseg t : ItemType) :
    (typeEvents store exp queue tseg).count (Event.prepare t queue)
      = if tseg = t then 1 else 0 := by
  rw [typeEvents, List.count_cons]
  rw [List.count_eq_zero.mpr prepare_not_mem_entriesEvents]
  by_cases h : tseg = t
  · subst h
    simp
  · simp [h]

theorem dispatch_prepare_count (store : ExportStore) (exp : ExporterModel)
    (queue : List QueueEntry) (t : ItemType) :
    (dispatchEvents store exp queue).count (Event.prepare t queue) = 1 := by
  rw [dispatchEvents, List.count_append]
  have h1 : ([Event.close] : List Event).count (Event.prepare t queue) = 0 := by
    simp
  rw [h1, Nat.add_zero]
  simp only [typeOrder, List.flatMap_cons, List.flatMap_nil, List.count_append,
    List.append_nil]
  rw [count_prepare_typeEvents, count_prepare_typeEvents, count_prepare_typeEvents,
    count_prepare_typeEvents, count_prepare_typeEvents]
  cases t <;> simp

theorem dispatch_prepare_queue (store : ExportStore) (exp : ExporterModel)
    (queue : List QueueEntry) {t : ItemType} {q' : List QueueEntry}
    (h : Event.prepare t q' ∈ dispatchEvents store exp queue) : q' = queue := by
  rw [dispatchEvents] at h
  rcases List.mem_append.mp h with h1 | h1
  · rw [List.mem_flatMap] at h1
    obtain ⟨t'', _, hev⟩ := h1
    exact (prepare_mem_typeEvents hev).2
  · exact Event.noConfusion (List.mem_singleton.mp h1)

theorem dispatch_procItem_lt_of_split (store : ExportStore) (exp : ExporterModel)
    (queue : List QueueEntry) (pre suf : List ItemType)
    (hsplit : typeOrder = pre ++ suf) {t₁ t₂ : ItemType}
    (h1 : t₁ ∉ suf) (h2 : t₂ ∉ pre) (i j : Nat)
    (hi : i < (dispatchEvents store exp queue).length)
    (hj : j < (dispatchEvents store exp queue).length) {it₁ it₂ : Item}
    (hgi : (dispatchEvents store exp queue).get ⟨i, hi⟩ = Event.processItem t₁ it₁)
    (hgj : (dispatchEvents store exp queue).get ⟨j, hj⟩ = Event.processItem t₂ it₂) :
    i < j := by
  refine @append_index_lt (dispatchEvents store exp queue) _ _
    (dispatch_split store exp queue pre suf hsplit)
    (fun ev => ev = Event.processItem t₁ it₁) (fun ev => ev = Event.processItem t₂ it₂)
    ?_ ?_ i j hi hj hgi hgj
  · intro e he heq
    subst heq
    rcases List.mem_append.mp he with h | h
    · exact processItem_not_mem_typeEvents_flatMap h1 h
    · exact Event.noConfusion (List.mem_singleton.mp h)
  · intro e he heq
    subst heq
    exact processItem_not_mem_typeEvents_flatMap h2 he

theorem dispatch_prepare_lt_of_split (store : ExportStore) (exp : ExporterModel)
    (queue : List QueueEntry) (pre suf : List ItemType) (t : ItemType)
    (hsplit : typeOrder = pre ++ t :: suf) (hpre : t ∉ pre) (hsuf : t ∉ suf)
    (i j : Nat) (hi : i < (dispatchEvents store exp queue).length)
    (hj : j < (dispatchEvents store exp queue).length) {it : Item}
    (hgi : (dispatchEvents store exp queue).get ⟨i, hi⟩ = Event.prepare t queue)
    (hgj : (dispatchEvents store exp queue).get ⟨j, hj⟩ = Event.processItem t it) :
    i < j := by
  refine @append_index_lt (dispatchEvents store exp queue) _ _
    (dispatch_split_mid store exp queue pre suf t hsplit)
    (fun ev => ev = Event.prepare t queue) (fun ev => ev = Event.processItem t it)
    ?_ ?_ i j hi hj hgi hgj
  · intro e he heq
    subst heq
    rcases List.mem_append.mp he with h | h
    · exact prepare_not_mem_entriesEvents h
    · rcases List.mem_append.mp h with h' | h'
      · exact prepare_not_mem_typeEvents_flatMap hsuf h'
      · exact Event.noConfusion (List.mem_singleton.mp h')
  · intro e he heq
    subst heq
    rcases List.mem_append.mp he with h | h
    · exact processItem_not_mem_typeEvents_flatMap hpre h
    · exact Event.noConfusion (List.mem_singleton.mp h)

theorem dispatch_prepare_resource_lt (store : ExportStore) (exp : ExporterModel)
    (queue : List QueueEntry) (i j : Nat)
    (hi : i < (dispatchEvents store exp queue).length)
    (hj : j < (dispatchEvents store exp queue).length) {it : Item} {p : String}
    (hgi : (dispatchEvents store exp queue).get ⟨i, hi⟩
      = Event.prepare ItemType.resource queue)
    (hgj : (dispatchEvents store exp queue).get ⟨j, hj⟩ = Event.processResource it p) :
    i < j := by
  refine @append_index_lt (dispatchEvents store exp queue) _ _
    (dispatch_split_mid store exp queue [ItemType.folder]
      [ItemType.note, ItemType.tag, ItemType.noteTag] ItemType.resource rfl)
    (fun ev => ev = Event.prepare ItemType.resource queue)
    (fun ev => ev = Event.processResource it p)
    ?_ ?_ i j hi hj hgi hgj
  · intro e he heq
    subst heq
    rcases List.mem_append.mp he with h | h
    · exact prepare_not_mem_entriesEvents h
    · rcases List.mem_append.mp h with h' | h'
      · exact prepare_not_mem_typeEvents_flatMap (by decide) h'
      · exact Event.noConfusion (List.mem_singleton.mp h')
  · intro e he heq
    subst heq
    rcases List.mem_append.mp he with h | h
    · exact processResource_not_mem_typeEvents_flatMap (by decide) h
    · exact Event.noConfusion (List.mem_singleton.mp h)

/-! ## Claim C3 -/

/-- Claim C3: entries are dispatched grouped by the fixed type order
Container, Attachment, Document, Label, LabelAssignment — any `processItem`
call for a type earlier in the order comes strictly before any for a later
type (in particular every Attachment entry before any Document entry, and
every Label entry before any LabelAssignment entry); within each type the
processed items appear in original enqueue order; and
`prepareForProcessingItemType(type, fullQueue)` is called exactly once per
type, always with the entire all-types queue, before any entry of that type
is processed. -/
theorem c3_dispatch_order (store : ExportStore) (exp : ExporterModel)
    (queue : List QueueEntry) :
    (∀ (t₁ t₂ : ItemType) (i j : Nat)
        (hi : i < (dispatchEvents store exp queue).length)
        (hj : j < (dispatchEvents store exp queue).length) (it₁ it₂ : Item),
      typeIdx t₁ < typeIdx t₂ →
      (dispatchEvents store exp queue).get ⟨i, hi⟩ = Event.processItem t₁ it₁ →
      (dispatchEvents store exp queue).get ⟨j, hj⟩ = Event.processItem t₂ it₂ →
      i < j)
    ∧ (∀ t : ItemType,
        (dispatchEvents store exp queue).count (Event.prepare t queue) = 1
        ∧ ∀ q', Event.prepare t q' ∈ dispatchEvents store exp queue → q' = queue)
    ∧ (∀ (t : ItemType) (i j : Nat)
        (hi : i < (dispatchEvents store exp queue).length)
        (hj : j < (dispatchEvents store exp queue).length) (it : Item),
      (dispatchEvents store exp queue).get ⟨i, hi⟩ = Event.prepare t queue →
      (dispatchEvents store exp queue).get ⟨j, hj⟩ = Event.processItem t it →
      i < j)
    ∧ (∀ (i j : Nat) (hi : i < (dispatchEvents store exp queue).length)
        (hj : j < (dispatchEvents store exp queue).length) (it : Item) (p : String),
      (dispatchEvents store exp queue).get ⟨i, hi⟩
        = Event.prepare ItemType.resource queue →
      (dispatchEvents store exp queue).get ⟨j, hj⟩ = Event.processResource it p →
      i < j)
    ∧ (∀ t : ItemType,
        (dispatchEvents store exp queue).filterMap (procItemOf t)
          = (queue.filter (fun e => e.type == t)).filterMap
              (entryProcessedItem store exp)) := by
  refine ⟨?_, ?_, ?_, ?_, dispatch_filterMap_procItemOf store exp queue⟩
  · intro t₁ t₂ i j hi hj it₁ it₂ hlt hgi hgj
    cases t₁ <;> cases t₂ <;> simp [typeIdx] at hlt <;>
      first
      | exact dispatch_procItem_lt_of_split store exp queue [ItemType.folder]
          [ItemType.resource, ItemType.note, ItemType.tag, ItemType.noteTag] rfl
          (by decide) (by decide) i j hi hj hgi hgj
      | exact dispatch_procItem_lt_of_split store exp queue
          [ItemType.folder, ItemType.resource]
          [ItemType.note, ItemType.tag, ItemType.noteTag] rfl
          (by decide) (by decide) i j hi hj hgi hgj
      | exact dispatch_procItem_lt_of_split store exp queue
          [ItemType.folder, ItemType.resource, ItemType.note]
          [ItemType.tag, ItemType.noteTag] rfl
          (by decide) (by decide) i j hi hj hgi hgj
      | exact dispatch_procItem_lt_of_split store exp queue
          [ItemType.folder, ItemType.resource, ItemType.note, ItemType.tag]
          [ItemType.noteTag] rfl
          (by decide) (by decide) i j hi hj hgi hgj
  · intro t
    exact ⟨dispatch_prepare_count store exp queue t,
      fun q' h => dispatch_prepare_queue store exp queue h⟩
  · intro t i j hi hj it hgi hgj
    cases t with
    | folder =>
      exact dispatch_prepare_lt_of_split store exp queue []
        [ItemType.resource, ItemType.note, ItemType.tag, ItemType.noteTag] ItemType.folder
        rfl (by decide) (by decide) i j hi hj hgi hgj
    | resource =>
      exact dispatch_prepare_lt_of_split store exp queue [ItemType.folder]
        [ItemType.note, ItemType.tag, ItemType.noteTag] ItemType.resource
        rfl (by decide) (by decide) i j hi hj hgi hgj
    | note =>
      exact dispatch_prepare_lt_of_split store exp queue
        [ItemType.folder, ItemType.resource] [ItemType.tag, ItemType.noteTag] ItemType.note
        rfl (by decide) (by decide) i j hi hj hgi hgj
    | tag =>
      exact dispatch_prepare_lt_of_split store exp queue
        [ItemType.folder, ItemType.resource, ItemType.note] [ItemType.noteTag] ItemType.tag
        rfl (by decide) (by decide) i j hi hj hgi hgj
    | noteTag =>
      exact dispatch_prepare_lt_of_split store exp queue
        [ItemType.folder, ItemType.resource, ItemType.note, ItemType.tag] [] ItemType.noteTag
        rfl (by decide) (by decide) i j hi hj hgi hgj
  · intro i j hi hj it p hgi hgj
    exact dispatch_prepare_resource_lt store exp queue i j hi hj hgi hgj

/-- Witness for claim C3: in the concrete run over `wQueue`, the
`processItem` call for the Attachment (index 4) comes before the one for
the Document (index 7), and `prepareForProcessingItemType` is called
exactly once for the Attachment type with the full queue. -/
theorem c3_dispatch_order_witness :
    (4 : Nat) < 7
    ∧ (dispatchEvents wStore wExp wQueue).count
        (Event.prepare ItemType.resource wQueue) = 1 := by
  constructor
  · exact (c3_dispatch_order wStore wExp wQueue).1 ItemType.resource ItemType.note 4 7
      (by decide) (by decide) { id := "r" } { id := "n" } (by decide) (by decide) (by decide)
  · exact ((c3_dispatch_order wStore wExp wQueue).2.1 ItemType.resource).1

/-! ## Claims C4 and C7 -/

theorem itemType_mem_typeOrder (t : ItemType) : t ∈ typeOrder := by
  cases t <;> decide

theorem mem_dispatch_of_mem_processEntry {store : ExportStore} {exp : ExporterModel}
    {queue : List QueueEntry} {e : QueueEntry} {ev : Event}
    (he : e ∈ queue) (hev : ev ∈ processEntry store exp e) :
    ev ∈ dispatchEvents store exp queue := by
  rw [dispatchEvents]
  apply List.mem_append.mpr
  left
  rw [List.mem_flatMap]
  refine ⟨e.type, itemType_mem_typeOrder e.type, ?_⟩
  apply List.mem_cons_of_mem
  rw [entriesEvents, List.mem_flatMap]
  exact ⟨e, List.mem_filter.mpr ⟨he, by simp⟩, hev⟩

theorem processEntry_eq_processLoaded {store : ExportStore} {exp : ExporterModel}
    {e : QueueEntry} {it : Item} (hres : resolveEntryItem store e = some it) :
    processEntry store exp e = processLoaded store exp e.type it := by
  rcases e with ⟨ty, io⟩
  cases io with
  | item it₀ =>
    have h : it₀ = it := by simpa [resolveEntryItem] using hres
    subst h
    rfl
  | id i =>
    have hl : store.itemLoad ty i = some it := by simpa [resolveEntryItem] using hres
    simp [processEntry, hl]

theorem warning_mem_processEntry_of_processItemError {store : ExportStore}
    {exp : ExporterModel} {e : QueueEntry} {it : Item} {msg : String}
    (hres : resolveEntryItem store e = some it)
    (h1 : it.encryption_applied = false) (h2 : it.encryption_blob_encrypted = false)
    (hr : e.type = ItemType.resource →
      exp.processResourceError it (store.resourceFullPath it) = none)
    (hmsg : exp.processItemError e.type it = some msg) :
    Event.warning msg ∈ processEntry store exp e := by
  rw [processEntry_eq_processLoaded hres, processLoaded]
  have henc : (it.encryption_applied || it.encryption_blob_encrypted) = false := by
    rw [h1, h2]
    rfl
  rw [if_neg (by simp [henc])]
  by_cases hty : e.type = ItemType.resource
  · rw [if_pos hty]
    simp [hr hty, hmsg]
  · rw [if_neg hty]
    simp [hmsg]

theorem warning_mem_processEntry_of_processResourceError {store : ExportStore}
    {exp : ExporterModel} {e : QueueEntry} {it : Item} {msg : String}
    (hty : e.type = ItemType.resource) (hres : resolveEntryItem store e = some it)
    (h1 : it.encryption_applied = false) (h2 : it.encryption_blob_encrypted = false)
    (hmsg : exp.processResourceError it (store.resourceFullPath it) = some msg) :
    Event.warning msg ∈ processEntry store exp e := by
  rw [processEntry_eq_processLoaded hres, processLoaded]
  have henc : (it.encryption_applied || it.encryption_blob_encrypted) = false := by
    rw [h1, h2]
    rfl
  rw [if_neg (by simp [henc]), if_pos hty]
  simp [hmsg]

/-- Claim C4: for every export dispatch and queue entry, an error raised by
`processResource` or `processItem` for that entry is caught and becomes a
warning carrying the error's message in the accumulated result, while every
entry of the queue is still dispatched; the run reaches `close()`, which
occurs exactly once, after everything else. -/
theorem c4_error_isolation (store : ExportStore) (exp : ExporterModel)
    (queue : List QueueEntry) :
    (∃ body, dispatchEvents store exp queue = body ++ [Event.close]
      ∧ Event.close ∉ body)
    ∧ (∀ e ∈ queue, ∀ (it : Item) (msg : String),
        resolveEntryItem store e = some it →
        it.encryption_applied = false → it.encryption_blob_encrypted = false →
        (e.type = ItemType.resource →
          exp.processResourceError it (store.resourceFullPath it) = none) →
        exp.processItemError e.type it = some msg →
        msg ∈ (exportResult store exp queue).warnings)
    ∧ (∀ e ∈ queue, ∀ (it : Item) (msg : String), e.type = ItemType.resource →
        resolveEntryItem store e = some it →
        it.encryption_applied = false → it.encryption_blob_encrypted = false →
        exp.processResourceError it (store.resourceFullPath it) = some msg →
        msg ∈ (exportResult store exp queue).warnings)
    ∧ (∀ e ∈ queue, ∀ ev ∈ processEntry store exp e,
        ev ∈ dispatchEvents store exp queue) := by
  refine ⟨?_, ?_, ?_, fun e he ev hev => mem_dispatch_of_mem_processEntry he hev⟩
  · exact ⟨typeOrder.flatMap (typeEvents store exp queue), rfl,
      close_not_mem_typeEvents_flatMap⟩
  · intro e he it msg hres h1 h2 hr hmsg
    have hw := warning_mem_processEntry_of_processItemError hres h1 h2 hr hmsg
    exact List.mem_filterMap.mpr
      ⟨Event.warning msg, mem_dispatch_of_mem_processEntry he hw, rfl⟩
  · intro e he it msg hty hres h1 h2 hmsg
    have hw := warning_mem_processEntry_of_processResourceError hty hres h1 h2 hmsg
    exact List.mem_filterMap.mpr
      ⟨Event.warning msg, mem_dispatch_of_mem_processEntry he hw, rfl⟩

/-- Witness for claim C4: in the concrete run over `wQueue`, the
`processItem` error `"boom"` for the Document ends up as a warning in the
result, and the trace still ends with a single `close`. -/
theorem c4_error_isolation_witness :
    "boom" ∈ (exportResult wStore wExp wQueue).warnings
    ∧ (∃ body, dispatchEvents wStore wExp wQueue = body ++ [Event.close]
        ∧ Event.close ∉ body) := by
  constructor
  · exact (c4_error_isolation wStore wExp wQueue).2.1
      ⟨ItemType.note, ItemOrId.item { id := "n" }⟩ (by decide) { id := "n" } "boom"
      rfl rfl rfl (fun h => ItemType.noConfusion h) (by decide)
  · exact (c4_error_isolation wStore wExp wQueue).1

theorem processEntry_missing (store : ExportStore) (exp : ExporterModel) (t : ItemType)
    (i : String) (hl : store.itemLoad t i = none) :
    processEntry store exp (QueueEntry.mk t (ItemOrId.id i))
      = [Event.warning (if t = ItemType.resource then resourceMissingWarning i
          else itemMissingWarning t i)] := by
  by_cases h : t = ItemType.resource
  · subst h
    simp [processEntry, hl]
  · simp [processEntry, hl, h]

theorem processEntry_encrypted (store : ExportStore) (exp : ExporterModel)
    (e : QueueEntry) (it : Item) (hres : resolveEntryItem store e = some it)
    (henc : it.encryption_applied = true ∨ it.encryption_blob_encrypted = true) :
    processEntry store exp e = [Event.warning (encryptedWarning e.type it)] := by
  rw [processEntry_eq_processLoaded hres, processLoaded]
  have h : (it.encryption_applied || it.encryption_blob_encrypted) = true := by
    rcases henc with h | h <;> simp [h]
  rw [if_pos h]

theorem resourceMissingWarning_ne_itemMissingWarning (t : ItemType) (i j : String) :
    resourceMissingWarning i ≠ itemMissingWarning t j := by
  intro h
  have h1 : (resourceMissingWarning i).data.head? = some 'A' := rfl
  have h2 : (itemMissingWarning t j).data.head? = some 'C' := by
    cases t <;> rfl
  rw [h] at h1
  rw [h1] at h2
  exact absurd h2 (by decide)

/-- Claim C7: a queue entry held by bare id whose backing object cannot be
loaded produces exactly one warning (with Attachment-specific wording
mentioning the id, distinct from the wording used for every other type) and
no converter call for that entry; an entry whose resolved item is still
encrypted produces exactly one warning naming the item's kind and title/id
and no converter call; the run is not aborted — `close` still occurs and
every other entry still contributes its events. -/
theorem c7_skip_warnings (store : ExportStore) (exp : ExporterModel)
    (queue : List QueueEntry) :
    (∀ (t : ItemType) (i : String), QueueEntry.mk t (ItemOrId.id i) ∈ queue →
      store.itemLoad t i = none →
      processEntry store exp (QueueEntry.mk t (ItemOrId.id i))
          = [Event.warning (if t = ItemType.resource then resourceMissingWarning i
              else itemMissingWarning t i)]
        ∧ (if t = ItemType.resource then resourceMissingWarning i
            else itemMissingWarning t i) ∈ (exportResult store exp queue).warnings)
    ∧ (∀ (t : ItemType) (i j : String), resourceMissingWarning i ≠ itemMissingWarning t j)
    ∧ (∀ e ∈ queue, ∀ it : Item, resolveEntryItem store e = some it →
        (it.encryption_applied = true ∨ it.encryption_blob_encrypted = true) →
        processEntry store exp e = [Event.warning (encryptedWarning e.type it)]
        ∧ encryptedWarning e.type it ∈ (exportResult store exp queue).warnings)
    ∧ Event.close ∈ dispatchEvents store exp queue
    ∧ (∀ e ∈ queue, ∀ ev ∈ processEntry store exp e,
        ev ∈ dispatchEvents store exp queue) := by
  refine ⟨?_, resourceMissingWarning_ne_itemMissingWarning, ?_, ?_,
    fun e he ev hev => mem_dispatch_of_mem_processEntry he hev⟩
  · intro t i hmem hl
    have hpe := processEntry_missing store exp t i hl
    refine ⟨hpe, ?_⟩
    have hw : Event.warning (if t = ItemType.resource then resourceMissingWarning i
        else itemMissingWarning t i) ∈ processEntry store exp ⟨t, ItemOrId.id i⟩ := by
      rw [hpe]
      exact List.mem_singleton.mpr rfl
    exact List.mem_filterMap.mpr ⟨_, mem_dispatch_of_mem_processEntry hmem hw, rfl⟩
  · intro e he it hres henc
    have hpe := processEntry_encrypted store exp e it hres henc
    refine ⟨hpe, ?_⟩
    have hw : Event.warning (encryptedWarning e.type it) ∈ processEntry store exp e := by
      rw [hpe]
      exact List.mem_singleton.mpr rfl
    exact List.mem_filterMap.mpr ⟨_, mem_dispatch_of_mem_processEntry he hw, rfl⟩
  · rw [dispatchEvents]
    exact List.mem_append.mpr (Or.inr (List.mem_singleton.mpr rfl))

/-- Witness for claim C7: in the concrete run over `wQueue`, the missing
Attachment id `"rmiss"` and the missing Label id `"tmiss"` yield their two
distinctly-worded warnings, and the encrypted Document yields the
encrypted-item warning. -/
theorem c7_skip_warnings_witness :
    resourceMissingWarning "rmiss" ∈ (exportResult wStore wExp wQueue).warnings
    ∧ itemMissingWarning ItemType.tag "tmiss" ∈ (exportResult wStore wExp wQueue).warnings
    ∧ encryptedWarning ItemType.note { id := "enc", encryption_applied := true }
        ∈ (exportResult wStore wExp wQueue).warnings
    ∧ resourceMissingWarning "rmiss" ≠ itemMissingWarning ItemType.tag "tmiss" := by
  have h := c7_skip_warnings wStore wExp wQueue
  refine ⟨?_, ?_, ?_, h.2.1 ItemType.tag "rmiss" "tmiss"⟩
  · have h2 := (h.1 ItemType.resource "rmiss" (by decide) rfl).2
    simpa using h2
  · have h2 := (h.1 ItemType.tag "tmiss" (by decide) rfl).2
    simpa using h2
  · exact (h.2.2.1 ⟨ItemType.note, ItemOrId.item { id := "enc", encryption_applied := true }⟩
      (by decide) { id := "enc", encryption_applied := true } rfl (Or.inl rfl)).2

end Interop
